import Mathlib

/-!
Verification of the calendar-bot core (loop_calendar_bot).

Shallow embedding of the diff/notification logic of
`src/notification_manager.py` and the CalDAV query/parsing helpers of
`src/caldav_manager.py`.

Modelling conventions:
* Python `datetime` values are modelled by `PyDateTime`: `wall` is the
  displayed wall-clock value in seconds, `offset` is the UTC offset in
  seconds of the attached timezone (`none` = naive datetime).
  The configured zone (`Config.TZ`, default Europe/Moscow) is modelled as a
  fixed UTC offset (Moscow has had no DST since 2014): `localize` attaches
  the offset keeping the wall clock, `astimezone` shifts the wall clock by
  the offset difference.
* ISO-timestamp fields of the event dictionaries are modelled by their
  parse result: `Option PyDateTime`, where `none` stands for a missing,
  empty or unparseable `datetime.fromisoformat` input (the code either
  guards these with `if not raw` or catches the raised `ValueError`).
* Python `dict` comprehensions keyed by uid are modelled by association
  lists with first-occurrence key order and last-write-wins values
  (`insertLast`), exactly the Python dict semantics.
* The SQLAlchemy `MeetingCache` table for one user is modelled as a
  `List CacheEntry` of rows; `filter_by(...).first()` is first-match,
  `session.add` appends, and an uncommitted session (an exception raised
  before `session.commit()`) leaves the list unchanged.
-/

/-- Model of a Python `datetime`: wall-clock seconds plus an optional UTC
offset in seconds (`none` = naive). -/
structure PyDateTime where
  wall : Int
  offset : Option Int
deriving DecidableEq, Repr

/-- Model of the pervasive pattern
`x.astimezone(tz) if x.tzinfo else tz.localize(x)`: an aware datetime is
converted (wall shifted by the offset difference), a naive one is localized
(offset attached, wall kept). -/
def toLocal (tz : Int) (d : PyDateTime) : PyDateTime :=
  match d.offset with
  | some o => { wall := d.wall - o + tz, offset := some tz }
  | none => { wall := d.wall, offset := some tz }

/-- The instant (UTC seconds) denoted by a datetime; a naive value is read
as wall time in the zone with offset `tz`. -/
def utcInstant (tz : Int) (d : PyDateTime) : Int :=
  match d.offset with
  | some o => d.wall - o
  | none => d.wall - tz

/-- `dt.replace(second=0, microsecond=0)` on the wall clock: floor to the
minute. -/
def floorMinute (w : Int) : Int := w - w % 60

/-- Calendar day of a wall-clock value (`datetime.date()`). -/
def dayOf (w : Int) : Int := w / 86400

/-- A normalized event dictionary as produced by
`CalDAVManager._parse_events` / the fallback parsers: all keys present;
timestamp strings are carried as their parse result. -/
structure Event where
  uid : String
  title : String
  startTime : Option PyDateTime
  endTime : Option PyDateTime
  attendees : List String
  description : String
  location : String
  organizer : String
  status : String
  alarms : List (Option PyDateTime)
deriving DecidableEq, Repr

/-- A `MeetingCache` row (one user's cache; `user_id` is implicit). -/
structure CacheEntry where
  uid : String
  title : String
  startTime : PyDateTime
  endTime : PyDateTime
  description : String
  location : String
  organizer : String
  attendees : String
  status : String
  hashValue : String
deriving DecidableEq, Repr

/-- Python `str.upper()` on the (ASCII) status strings, written on the
character list so that it evaluates in the kernel. -/
def pyUpper (s : String) : String := ⟨s.data.map Char.toUpper⟩

/-- `(event.get('status') or 'CONFIRMED').upper()` — the empty string is
falsy in Python, so it is replaced by CONFIRMED before uppercasing. -/
def currentStatus (e : Event) : String :=
  pyUpper (if e.status = "" then "CONFIRMED" else e.status)

/-- `(cached.status or '').upper()`. -/
def cachedStatusU (c : CacheEntry) : String := pyUpper c.status

/-- `NotificationManager._event_changed_time`: parse the current event's
start/end (`False` on missing/empty/unparseable), normalize everything to
the configured zone, and compare at minute granularity. -/
def eventChangedTime (tz : Int) (c : CacheEntry) (e : Event) : Bool :=
  match e.startTime, e.endTime with
  | some cs, some ce =>
    let curS := toLocal tz cs
    let curE := toLocal tz ce
    let caS := toLocal tz c.startTime
    let caE := toLocal tz c.endTime
    !(floorMinute caS.wall == floorMinute curS.wall &&
      floorMinute caE.wall == floorMinute curE.wall)
  | _, _ => false

/-- The five lifecycle classifications of the diff engine; `unchanged`
covers every no-emission outcome (including the suppressed
no-cache-but-already-CANCELLED case). -/
inductive Classification where
  | new
  | uncancelled
  | cancelled
  | rescheduled
  | unchanged
deriving DecidableEq, Repr

/-- The per-pair branch structure of `check_and_notify` (src/notification_manager.py
lines 69-87): no cached entry → NEW unless the current status is CANCELLED;
cached CANCELLED and current not → UNCANCELLED; cached not CANCELLED and
current CANCELLED → CANCELLED; otherwise RESCHEDULED when the minute-level
times changed and the current status is not CANCELLED; else UNCHANGED. -/
def classify (tz : Int) (cached : Option CacheEntry) (e : Event) : Classification :=
  match cached with
  | none => if currentStatus e ≠ "CANCELLED" then .new else .unchanged
  | some c =>
    let cs := currentStatus e
    let cst := cachedStatusU c
    if cst = "CANCELLED" ∧ cs ≠ "CANCELLED" then .uncancelled
    else if cst ≠ "CANCELLED" ∧ cs = "CANCELLED" then .cancelled
    else if cs ≠ "CANCELLED" ∧ eventChangedTime tz c e then .rescheduled
    else .unchanged

/-- Notification payloads, mirroring the arguments the notifier methods
read from the event / cached entry (the stored hash is never part of a
payload). -/
inductive Notif where
  | newMeeting (e : Event)
  | cancelledMeeting (title : String) (s e : PyDateTime)
  | rescheduledMeeting (title : String) (oldS oldE : PyDateTime)
      (newS newE : Option PyDateTime)
  | reminder (title : String) (start : PyDateTime) (location : String)
  | meetingStart (title : String) (start : PyDateTime) (location : String)
deriving DecidableEq, Repr

/-- Whether a notification is a reschedule alert. -/
def Notif.isReschedule : Notif → Bool
  | .rescheduledMeeting _ _ _ _ _ => true
  | _ => false

/-- The notification(s) sent for one cached/current pair, as dictated by
its classification: NEW and UNCANCELLED both send the new-meeting message,
CANCELLED sends the cancellation message built from the cached row,
RESCHEDULED sends old and new times, UNCHANGED sends nothing. -/
def emitFor (tz : Int) (cached : Option CacheEntry) (e : Event) : List Notif :=
  match classify tz cached e, cached with
  | .new, _ => [.newMeeting e]
  | .uncancelled, _ => [.newMeeting e]
  | .cancelled, some c => [.cancelledMeeting c.title c.startTime c.endTime]
  | .rescheduled, some c =>
      [.rescheduledMeeting c.title c.startTime c.endTime e.startTime e.endTime]
  | _, _ => []

/-- Python-dict insertion: if the key exists, its value is overwritten in
place (key keeps its first-occurrence position); otherwise the pair is
appended. -/
def insertLast {α : Type} (m : List (String × α)) (k : String) (v : α) :
    List (String × α) :=
  if m.any (fun p => p.1 == k) then
    m.map (fun p => if p.1 == k then (k, v) else p)
  else m ++ [(k, v)]

/-- `dict.get(k)` on an association list with unique keys. -/
def lookupMap {α : Type} (m : List (String × α)) (k : String) : Option α :=
  match m.find? (fun p => p.1 == k) with
  | some p => some p.2
  | none => none

/-- `{ev.get('uid', ''): ev for ev in current_events if ev.get('uid')}` —
events with an empty uid are dropped; for duplicate uids the last value
wins. -/
def buildEventsMap (events : List Event) : List (String × Event) :=
  events.foldl (fun m e => if e.uid == "" then m else insertLast m e.uid e) []

/-- Window filter of `_get_cached_events_map`:
`start_time >= start_date and start_time <= end_date` on the stored wall
clock. -/
def rowInWindow (winS winE : Int) (c : CacheEntry) : Bool :=
  decide (winS ≤ c.startTime.wall ∧ c.startTime.wall ≤ winE)

/-- `NotificationManager._get_cached_events_map`: query the rows whose
start falls in the window and key them by uid (empty uids dropped). -/
def cachedEventsMap (db : List CacheEntry) (winS winE : Int) :
    List (String × CacheEntry) :=
  (db.filter (rowInWindow winS winE)).foldl
    (fun m c => if c.uid == "" then m else insertLast m c.uid c) []

/-- The comparison loop of `check_and_notify` (lines 64-87): walk the
current-events map in order; an event whose start does not parse makes
`_is_today_or_tomorrow` raise, aborting the user's tick (third component
`false`); events outside today/tomorrow are skipped; the rest are
classified against the cache and their notifications emitted, collecting
the set of uids seen (`relevant_current_uids`). -/
def diffLoop (tz todayWall : Int) (cmap : List (String × CacheEntry)) :
    List (String × Event) → List Notif × List String × Bool
  | [] => ([], [], true)
  | (uid, e) :: rest =>
    match e.startTime with
    | none => ([], [], false)
    | some st =>
      if dayOf st.wall = dayOf todayWall ∨ dayOf st.wall = dayOf todayWall + 1 then
        let here := emitFor tz (lookupMap cmap uid) e
        let r := diffLoop tz todayWall cmap rest
        (here ++ r.1, uid :: r.2.1, r.2.2)
      else diffLoop tz todayWall cmap rest

/-- `NotificationManager._mark_event_cancelled`: flip the status of the
first row with the given uid to CANCELLED, in place; every other field and
every other row is untouched, and no row is deleted. -/
def markEventCancelled : List CacheEntry → String → List CacheEntry
  | [], _ => []
  | c :: rest, uid =>
    if c.uid == uid then { c with status := "CANCELLED" } :: rest
    else c :: markEventCancelled rest uid

/-- The implicit-disappearance branch of `check_and_notify` (lines 89-100):
for every cached uid not seen in the current fetch and not already
CANCELLED, send a cancellation notification and tombstone the row. Returns
the notifications, the uids passed to `_mark_event_cancelled`, and the
updated rows. -/
def implicitCancellations (relevant : List String) :
    List (String × CacheEntry) → List CacheEntry →
    List Notif × List String × List CacheEntry
  | [], db => ([], [], db)
  | (uid, c) :: rest, db =>
    if relevant.contains uid then implicitCancellations relevant rest db
    else if cachedStatusU c = "CANCELLED" then implicitCancellations relevant rest db
    else
      let r := implicitCancellations relevant rest (markEventCancelled db uid)
      (.cancelledMeeting c.title c.startTime c.endTime :: r.1, uid :: r.2.1, r.2.2)

/-- Simplified `json.dumps` of the attendee list (string escaping elided;
the stored text is never read back by the diff engine). -/
def jsonDumps (l : List String) : String :=
  "[" ++ String.intercalate ", " (l.map (fun s => "\x22" ++ s ++ "\x22")) ++ "]"

/-- Replace the fields of the first row carrying the uid (the
`filter_by(...).first()` row that `_update_events_cache` mutates). -/
def replaceFirstByUid : List CacheEntry → String → CacheEntry → List CacheEntry
  | [], _, _ => []
  | c :: rest, uid, entry =>
    if c.uid == uid then entry :: rest
    else c :: replaceFirstByUid rest uid entry

/-- The row fields written by `_update_events_cache` for one event (the
parsers always emit every key, so the dict defaults never apply; the
stored hash is recomputed from the event). -/
def upsertEntry (hashFn : Event → String) (e : Event) (st en : PyDateTime) :
    CacheEntry :=
  { uid := e.uid, title := e.title, startTime := st, endTime := en,
    description := e.description, location := e.location,
    organizer := e.organizer, attendees := jsonDumps e.attendees,
    status := e.status, hashValue := hashFn e }

/-- One iteration of `_update_events_cache`: skip an empty uid; otherwise
upsert the row built from the event by uid. A start or end that does not
parse raises inside the loop, so the whole (single-commit) update is
rolled back: `none`. -/
def upsertOne (hashFn : Event → String) (db : List CacheEntry) (e : Event) :
    Option (List CacheEntry) :=
  if e.uid == "" then some db
  else
    match e.startTime, e.endTime with
    | some st, some en =>
      if db.any (fun c => c.uid == e.uid) then
        some (replaceFirstByUid db e.uid (upsertEntry hashFn e st en))
      else some (db ++ [upsertEntry hashFn e st en])
    | _, _ => none

/-- The upsert loop of `_update_events_cache` under one transaction. -/
def updateEventsCacheLoop (hashFn : Event → String) :
    List CacheEntry → List Event → Option (List CacheEntry)
  | db, [] => some db
  | db, e :: rest =>
    match upsertOne hashFn db e with
    | none => none
    | some db2 => updateEventsCacheLoop hashFn db2 rest

/-- `NotificationManager._update_events_cache`: commit the upserts, or—if
any event's timestamps fail to parse—leave the table unchanged (the session
closes without commit). Second component: whether the update completed. -/
def updateEventsCache (hashFn : Event → String) (db : List CacheEntry)
    (events : List Event) : List CacheEntry × Bool :=
  match updateEventsCacheLoop hashFn db events with
  | some db2 => (db2, true)
  | none => (db, false)

/-- `0 <= delta < check_window`. -/
def inWindow (delta window : Int) : Bool := decide (0 ≤ delta ∧ delta < window)

/-- The VALARM scan of `_check_reminders` (lines 236-257): alarms that fail
to parse are skipped; the first alarm whose trigger falls within
`[now, now+window)` (after normalization to the configured zone) stops the
scan. -/
def firstTriggeredAlarm (tz window nowWall : Int) :
    List (Option PyDateTime) → Option PyDateTime
  | [] => none
  | none :: rest => firstTriggeredAlarm tz window nowWall rest
  | some a :: rest =>
    if inWindow ((toLocal tz a).wall - nowWall) window then some a
    else firstTriggeredAlarm tz window nowWall rest

/-- The per-event body of `_check_reminders` (lines 226-284), given the
parsed start: fire at most one of (a) a VALARM reminder for the first
triggered alarm, (b) the fixed lead-time fallback — only when the event
has no alarms at all and `REMINDER_MINUTES > 0`, (c) the start-of-meeting
notice when the start itself falls in the tick window. -/
def eventReminderNotifs (tz rm window nowWall : Int) (e : Event)
    (st : PyDateTime) : List Notif :=
  let start := toLocal tz st
  match firstTriggeredAlarm tz window nowWall e.alarms with
  | some _ => [.reminder e.title start e.location]
  | none =>
    if rm > 0 ∧ e.alarms = [] ∧ inWindow (start.wall - nowWall - rm * 60) window then
      [.reminder e.title start e.location]
    else if inWindow (start.wall - nowWall) window then
      [.meetingStart e.title start e.location]
    else []

/-- The event loop of `_check_reminders`: an unparseable start raises and
the surrounding `except` returns what was already sent; later events are
not examined. -/
def checkRemindersLoop (tz rm window nowWall : Int) : List Event → List Notif
  | [] => []
  | e :: rest =>
    match e.startTime with
    | none => []
    | some st =>
      eventReminderNotifs tz rm window nowWall e st ++
        checkRemindersLoop tz rm window nowWall rest

/-- `NotificationManager._check_reminders`: nothing is sent when the user
channel cannot be resolved. -/
def checkReminders (tz rm window nowWall : Int) (channelOk : Bool)
    (events : List Event) : List Notif :=
  if channelOk then checkRemindersLoop tz rm window nowWall events else []

/-- Result of one user's `check_and_notify` pass: all notifications in
emission order, the sub-list emitted by the implicit-disappearance branch,
the uids tombstoned by `_mark_event_cancelled`, the resulting cache rows,
and whether the pass ran to completion without an exception. -/
structure TickResult where
  notifs : List Notif
  implicitCancels : List Notif
  marked : List String
  db : List CacheEntry
  completed : Bool
deriving DecidableEq, Repr

/-- One user's tick of `NotificationManager.check_and_notify` (lines
48-107): build the current-events map, read the cached window, classify
and notify, run the implicit-disappearance branch only when the fetch was
trustworthy (`request_ok`) and the cached map is non-empty, upsert the
cache, then check reminders. Exceptions abort the remaining stages as in
the source. -/
def checkTick (hashFn : Event → String) (tz rm window : Int) (requestOk : Bool)
    (currentEvents : List Event) (db : List CacheEntry)
    (todayWall tomorrowEndWall nowWall : Int) (channelOk : Bool) : TickResult :=
  let emap := buildEventsMap currentEvents
  let cmap := cachedEventsMap db todayWall tomorrowEndWall
  let dres := diffLoop tz todayWall cmap emap
  if dres.2.2 then
    let ires :=
      if requestOk ∧ cmap ≠ [] then implicitCancellations dres.2.1 cmap db
      else ([], [], db)
    let ures := updateEventsCache hashFn ires.2.2 (emap.map Prod.snd)
    if ures.2 then
      let rem := checkReminders tz rm window nowWall channelOk (emap.map Prod.snd)
      { notifs := dres.1 ++ ires.1 ++ rem, implicitCancels := ires.1,
        marked := ires.2.1, db := ures.1, completed := true }
    else
      { notifs := dres.1 ++ ires.1, implicitCancels := ires.1,
        marked := ires.2.1, db := ures.1, completed := false }
  else
    { notifs := dres.1, implicitCancels := [], marked := [], db := db,
      completed := false }

/-- HTTP statuses accepted by `get_events` for a REPORT response. -/
def statusOk (s : Nat) : Bool := s == 200 || s == 207

/-- One REPORT attempt of `get_events`: the response status and the events
parsed from its body (the body is only parsed when the status is ok). -/
structure ReportAttempt where
  status : Nat
  events : List Event
deriving DecidableEq, Repr

/-- Aggregation over a round of REPORT requests (lines 216-239 and
246-266): a failed status contributes nothing; a successful one sets
`last_events_ok` and appends its parsed events. -/
def collectReports (init : List Event × Bool) (attempts : List ReportAttempt) :
    List Event × Bool :=
  attempts.foldl
    (fun acc a => if statusOk a.status then (acc.1 ++ a.events, true) else acc)
    init

/-- `CalDAVManager.get_events` after calendar discovery: the primary
REPORT round; the widened 7-day round only when no events were found; the
python-caldav `date_search` fallback only when there are still none
(`some evs` models a successful `date_search`, which sets the success flag
even before parsing; `none` models its failure). Returns the aggregated
events and `last_events_ok`. -/
def getEventsAgg (primary fallback : List ReportAttempt)
    (dateSearch : Option (List Event)) : List Event × Bool :=
  let r1 := collectReports ([], false) primary
  let r2 := if r1.1 = [] then collectReports r1 fallback else r1
  if r2.1 = [] then
    match dateSearch with
    | some evs => (evs, true)
    | none => r2
  else r2

/-- Clamp of the configured digest hour:
`max(0, min(23, int(getattr(Config, "DAILY_DIGEST_HOUR", 9))))`. -/
def clampHour (h : Int) : Int := max 0 (min 23 h)

/-- Inputs of one `_maybe_send_daily_digest` call: the current local wall
clock, whether `logic.get_today_meetings` succeeded, and whether the user
channel resolved. -/
structure DigestInput where
  nowWall : Int
  fetchOk : Bool
  channelOk : Bool
deriving DecidableEq, Repr

/-- `NotificationManager._maybe_send_daily_digest` acting on the digest
log, modelled as the list of `(user_id, digest_date)` rows of
`DailyDigestLog`: return before the configured hour; return when a row for
(user, today) exists (`_digest_already_sent`); return on fetch or channel
failure; otherwise send (count 1) and append the row
(`_mark_digest_sent`). -/
def digestTick (hourCfg : Int) (user : String) (log : List (String × Int))
    (inp : DigestInput) : Nat × List (String × Int) :=
  let d := dayOf inp.nowWall
  let target := d * 86400 + clampHour hourCfg * 3600
  if inp.nowWall < target then (0, log)
  else if (user, d) ∈ log then (0, log)
  else if inp.fetchOk = false then (0, log)
  else if inp.channelOk = false then (0, log)
  else (1, log ++ [(user, d)])

/-- A sequence of digest checks (one per polling tick) threading the log;
returns the total number of digests sent and the final log. -/
def digestRun (hourCfg : Int) (user : String) :
    List (String × Int) → List DigestInput → Nat × List (String × Int)
  | log, [] => (0, log)
  | log, inp :: rest =>
    let r := digestTick hourCfg user log inp
    let rr := digestRun hourCfg user r.2 rest
    (r.1 + rr.1, rr.2)

/-- Zero-padded decimal rendering (strftime field). -/
def pad (width : Nat) (n : Nat) : String :=
  let s := toString n
  ⟨List.replicate (width - s.length) '0'⟩ ++ s

/-- Proleptic-Gregorian date from days since the Unix epoch
(the standard civil-from-days computation). -/
def civilFromDays (z0 : Int) : Int × Nat × Nat :=
  let z := z0 + 719468
  let era := Int.fdiv z 146097
  let doe := (z - era * 146097).toNat
  let yoe := (doe - doe / 1460 + doe / 36524 - doe / 146096) / 365
  let y : Int := (yoe : Int) + era * 400
  let doy := doe - (365 * yoe + yoe / 4 - yoe / 100)
  let mp := (5 * doy + 2) / 153
  let d := doy - (153 * mp + 2) / 5 + 1
  let m := if mp < 10 then mp + 3 else mp - 9
  (if m ≤ 2 then y + 1 else y, m, d)

/-- `strftime("%Y%m%dT%H%M%S")` of a wall-clock value in seconds. -/
def formatBasic (t : Int) : String :=
  let days := Int.fdiv t 86400
  let secs := (t - days * 86400).toNat
  let c := civilFromDays days
  pad 4 c.1.toNat ++ pad 2 c.2.1 ++ pad 2 c.2.2 ++ "T" ++
    pad 2 (secs / 3600) ++ pad 2 (secs % 3600 / 60) ++ pad 2 (secs % 60)

/-- The wall clock rendered into the wire query by
`_build_calendar_query`: an aware input is converted to UTC
(`astimezone(pytz.UTC)`), a naive one is used as-is. -/
def queryStamp (d : PyDateTime) : Int :=
  match d.offset with
  | some o => d.wall - o
  | none => d.wall

/-- `CalDAVManager._build_calendar_query`: the REPORT body, with the two
timestamps interpolated exactly as in the source f-string. -/
def buildCalendarQuery (s e : PyDateTime) : String :=
  let startStr := formatBasic (queryStamp s) ++ "Z"
  let endStr := formatBasic (queryStamp e) ++ "Z"
  "<?xml version=\"1.0\" encoding=\"utf-8\" ?>\n<C:calendar-query xmlns:D=\"DAV:\" xmlns:C=\"urn:ietf:params:xml:ns:caldav\">\n  <D:prop>\n    <D:getetag/>\n    <C:calendar-data/>\n  </D:prop>\n  <C:filter>\n    <C:comp-filter name=\"VCALENDAR\">\n      <C:comp-filter name=\"VEVENT\">\n        <C:time-range start=\"" ++ startStr ++ "\" end=\"" ++ endStr ++ "\"/>\n      </C:comp-filter>\n    </C:comp-filter>\n  </C:filter>\n</C:calendar-query>"

/-- Reference rendering of the query for a given pair of stamp strings,
used to state what the wire document carries. -/
def calendarQueryXml (startStr endStr : String) : String :=
  "<?xml version=\"1.0\" encoding=\"utf-8\" ?>\n<C:calendar-query xmlns:D=\"DAV:\" xmlns:C=\"urn:ietf:params:xml:ns:caldav\">\n  <D:prop>\n    <D:getetag/>\n    <C:calendar-data/>\n  </D:prop>\n  <C:filter>\n    <C:comp-filter name=\"VCALENDAR\">\n      <C:comp-filter name=\"VEVENT\">\n        <C:time-range start=\"" ++ startStr ++ "\" end=\"" ++ endStr ++ "\"/>\n      </C:comp-filter>\n    </C:comp-filter>\n  </C:filter>\n</C:calendar-query>"

/-- Python `str.isspace` characters relevant to `.strip()`/`.split()`. -/
def isPySpace (c : Char) : Bool :=
  c == ' ' || c == '\t' || c == '\n' || c == '\r' || c == '\x0b' || c == '\x0c'

/-- Python `str.strip()` on a character list. -/
def stripL (l : List Char) : List Char :=
  ((l.dropWhile isPySpace).reverse.dropWhile isPySpace).reverse

/-- `addr.lower().startswith("mailto:")` — case-insensitive prefix test. -/
def hasMailtoMark (l : List Char) : Bool :=
  (l.take 7).map Char.toLower == "mailto:".data

/-- `addr = addr[7:] if addr.lower().startswith("mailto:") else addr`. -/
def stripMailtoL (l : List Char) : List Char :=
  if hasMailtoMark l then l.drop 7 else l

/-- `addr.strip().replace('\n', '').replace('\r', '').split()[0] if
addr.strip() else ''` — the whitespace-collapse / first-token cleanup
applied to attendee values. -/
def cleanTokenL (l : List Char) : List Char :=
  if stripL l = [] then []
  else
    let cleaned := ((stripL l).filter (fun c => c ≠ '\n')).filter (fun c => c ≠ '\r')
    (cleaned.dropWhile isPySpace).takeWhile (fun c => !isPySpace c)

/-- Attendee normalization in the structured `_parse_events` path
(src/caldav_manager.py lines 601-608); the python-caldav fallback path
(lines 337-344) applies the identical sequence. -/
def parseAttendeeStructured (raw : String) : String :=
  ⟨cleanTokenL (stripMailtoL raw.data)⟩

/-- Organizer normalization in the structured `_parse_events` path
(src/caldav_manager.py lines 609-614); the python-caldav fallback path
(lines 345-350) is identical. Only the mailto marker is stripped. -/
def parseOrganizerStructured (raw : String) : String :=
  ⟨stripMailtoL raw.data⟩

theorem eventChangedTime_some (tz : Int) (c : CacheEntry) (e : Event)
    (cs ce : PyDateTime) (hs : e.startTime = some cs) (he : e.endTime = some ce) :
    eventChangedTime tz c e =
      !(floorMinute (toLocal tz c.startTime).wall == floorMinute (toLocal tz cs).wall &&
        floorMinute (toLocal tz c.endTime).wall == floorMinute (toLocal tz ce).wall) := by
  unfold eventChangedTime
  rw [hs, he]

theorem classify_some_noncancelled (tz : Int) (c : CacheEntry) (e : Event)
    (hcst : cachedStatusU c ≠ "CANCELLED") (hcur : currentStatus e ≠ "CANCELLED") :
    classify tz (some c) e =
      if eventChangedTime tz c e then .rescheduled else .unchanged := by
  unfold classify
  simp [hcst, hcur]

theorem floorMinute_shift_ne (w : Int) : floorMinute (w + 61) ≠ floorMinute w := by
  unfold floorMinute
  omega

/-- C3: for every cached/current pair the diff classification is total and
mutually exclusive — the classifier yields exactly one of NEW, UNCANCELLED,
CANCELLED, RESCHEDULED, UNCHANGED, and at most one notification is emitted
per pair (none exactly for UNCHANGED); an event with no cached entry
classifies NEW unless its current status is already CANCELLED, in which
case it is suppressed with no emission. -/
theorem c3_classification_total_and_exclusive (tz : Int)
    (cached : Option CacheEntry) (e : Event) :
    (classify tz cached e = .new ∨ classify tz cached e = .uncancelled ∨
     classify tz cached e = .cancelled ∨ classify tz cached e = .rescheduled ∨
     classify tz cached e = .unchanged) ∧
    (emitFor tz cached e).length ≤ 1 ∧
    ((emitFor tz cached e).length = 0 ↔ classify tz cached e = .unchanged) ∧
    (currentStatus e = "CANCELLED" →
      classify tz none e = .unchanged ∧ emitFor tz none e = []) ∧
    (currentStatus e ≠ "CANCELLED" →
      classify tz none e = .new ∧ emitFor tz none e = [.newMeeting e]) := by
  refine ⟨?_, ?_, ?_, ?_, ?_⟩
  · cases hc : classify tz cached e <;> simp
  · cases cached with
    | none => cases hc : classify tz none e <;> simp [emitFor, hc]
    | some c => cases hc : classify tz (some c) e <;> simp [emitFor, hc]
  · cases cached with
    | none =>
      by_cases hcs : currentStatus e = "CANCELLED"
      · simp [emitFor, classify, hcs]
      · simp [emitFor, classify, hcs]
    | some c => cases hc : classify tz (some c) e <;> simp [emitFor, hc]
  · intro hcs
    constructor
    · simp [classify, hcs]
    · simp [emitFor, classify, hcs]
  · intro hcs
    constructor
    · simp [classify, hcs]
    · simp [emitFor, classify, hcs]

/-- C3 witness: a concrete pair with no cached entry and CANCELLED current
status is suppressed with no emission. -/
theorem c3_classification_total_and_exclusive_witness :
    classify 10800 none
        { uid := "a", title := "t", startTime := some ⟨0, none⟩,
          endTime := some ⟨60, none⟩, attendees := [], description := "",
          location := "", organizer := "", status := "CANCELLED", alarms := [] }
        = .unchanged ∧
    emitFor 10800 none
        { uid := "a", title := "t", startTime := some ⟨0, none⟩,
          endTime := some ⟨60, none⟩, attendees := [], description := "",
          location := "", organizer := "", status := "CANCELLED", alarms := [] }
        = [] :=
  (c3_classification_total_and_exclusive 10800 none
      { uid := "a", title := "t", startTime := some ⟨0, none⟩,
        endTime := some ⟨60, none⟩, attendees := [], description := "",
        location := "", organizer := "", status := "CANCELLED", alarms := [] }).2.2.2.1
    (by decide)

/-- Cached row at 00:00:45 local (wall second 45), one hour long. -/
def c2CachedRow : CacheEntry :=
  { uid := "a", title := "standup", startTime := ⟨45, none⟩,
    endTime := ⟨3645, none⟩, description := "", location := "",
    organizer := "", attendees := "[]", status := "CONFIRMED",
    hashValue := "" }

/-- The same event fetched 30 seconds later: 00:01:15 local. -/
def c2CurrentEvent : Event :=
  { uid := "a", title := "standup", startTime := some ⟨75, none⟩,
    endTime := some ⟨3675, none⟩, attendees := [], description := "",
    location := "", organizer := "", status := "CONFIRMED", alarms := [] }

/-- C2 counterexample: an event moved by exactly 30 seconds — from wall
second 45 to wall second 75 — crosses a minute boundary, so the code
classifies it RESCHEDULED, refuting "for every event moved by 30 seconds
the classification is UNCHANGED". -/
theorem c2_thirty_second_move_rescheduled :
    c2CurrentEvent.startTime = some ⟨c2CachedRow.startTime.wall + 30, none⟩ ∧
    c2CurrentEvent.endTime = some ⟨c2CachedRow.endTime.wall + 30, none⟩ ∧
    classify 10800 (some c2CachedRow) c2CurrentEvent = .rescheduled := by
  refine ⟨by decide, by decide, ?_⟩
  decide

/-- C2 (amended): with neither status CANCELLED and parseable current
times, the pair classifies RESCHEDULED exactly when start or end differ
after both are floored to the minute; a move of 61 seconds always changes
the minute floor, hence always classifies RESCHEDULED (a 30-second move is
UNCHANGED only when it stays inside the same minute). -/
theorem c2_reschedule_iff_minute_floor_differs (tz : Int) (c : CacheEntry)
    (e : Event) (cs ce : PyDateTime) (hs : e.startTime = some cs)
    (he : e.endTime = some ce) (hcst : cachedStatusU c ≠ "CANCELLED")
    (hcur : currentStatus e ≠ "CANCELLED") :
    (classify tz (some c) e = .rescheduled ↔
      ¬(floorMinute (toLocal tz c.startTime).wall = floorMinute (toLocal tz cs).wall ∧
        floorMinute (toLocal tz c.endTime).wall = floorMinute (toLocal tz ce).wall)) ∧
    ((toLocal tz cs).wall = (toLocal tz c.startTime).wall + 61 →
      classify tz (some c) e = .rescheduled) := by
  have hiff : eventChangedTime tz c e = true ↔
      ¬(floorMinute (toLocal tz c.startTime).wall = floorMinute (toLocal tz cs).wall ∧
        floorMinute (toLocal tz c.endTime).wall = floorMinute (toLocal tz ce).wall) := by
    rw [eventChangedTime_some tz c e cs ce hs he]
    simp
    tauto
  have hclass := classify_some_noncancelled tz c e hcst hcur
  constructor
  · rw [hclass]
    by_cases hch : eventChangedTime tz c e = true
    · rw [if_pos hch]
      exact ⟨fun _ => hiff.mp hch, fun _ => rfl⟩
    · rw [if_neg hch]
      have hP : floorMinute (toLocal tz c.startTime).wall = floorMinute (toLocal tz cs).wall ∧
          floorMinute (toLocal tz c.endTime).wall = floorMinute (toLocal tz ce).wall := by
        by_contra hnp
        exact hch (hiff.mpr hnp)
      simp [hP]
  · intro hshift
    rw [hclass]
    rw [if_pos]
    rw [hiff]
    intro hconj
    have := hconj.1
    rw [hshift] at this
    exact floorMinute_shift_ne (toLocal tz c.startTime).wall this.symm

/-- Cached row starting exactly at a minute boundary. -/
def c2ShiftRow : CacheEntry :=
  { uid := "b", title := "w", startTime := ⟨0, none⟩, endTime := ⟨3600, none⟩,
    description := "", location := "", organizer := "", attendees := "[]",
    status := "CONFIRMED", hashValue := "" }

/-- The same event fetched with its start 61 seconds later. -/
def c2ShiftEvent : Event :=
  { uid := "b", title := "w", startTime := some ⟨61, none⟩,
    endTime := some ⟨3600, none⟩, attendees := [], description := "",
    location := "", organizer := "", status := "CONFIRMED", alarms := [] }

/-- C2 witness: the amended theorem applied at a concrete 61-second move
yields RESCHEDULED. -/
theorem c2_reschedule_iff_minute_floor_differs_witness :
    classify 10800 (some c2ShiftRow) c2ShiftEvent = .rescheduled :=
  (c2_reschedule_iff_minute_floor_differs 10800 c2ShiftRow c2ShiftEvent
      ⟨61, none⟩ ⟨3600, none⟩ rfl rfl (by decide) (by decide)).2 (by decide)

/-- C10: a cached/current pair whose current start or end is missing,
empty or unparseable (parse result `none`) makes `_event_changed_time`
return false, so the pair never classifies RESCHEDULED and no reschedule
notification is emitted — the malformed timestamp degrades to UNCHANGED in
the time comparison instead of raising or misclassifying. -/
theorem c10_unparseable_time_never_reschedules (tz : Int) (c : CacheEntry)
    (e : Event) (h : e.startTime = none ∨ e.endTime = none) :
    eventChangedTime tz c e = false ∧
    classify tz (some c) e ≠ .rescheduled ∧
    (emitFor tz (some c) e).all (fun n => !n.isReschedule) = true := by
  have hch : eventChangedTime tz c e = false := by
    cases hs : e.startTime with
    | none => simp [eventChangedTime, hs]
    | some cs =>
      cases he : e.endTime with
      | none => simp [eventChangedTime, hs, he]
      | some ce =>
        exfalso
        rcases h with h | h
        · rw [hs] at h; exact Option.noConfusion h
        · rw [he] at h; exact Option.noConfusion h
  have hdef : classify tz (some c) e =
      (if cachedStatusU c = "CANCELLED" ∧ currentStatus e ≠ "CANCELLED" then
        Classification.uncancelled
      else if cachedStatusU c ≠ "CANCELLED" ∧ currentStatus e = "CANCELLED" then
        Classification.cancelled
      else if currentStatus e ≠ "CANCELLED" ∧ eventChangedTime tz c e then
        Classification.rescheduled
      else Classification.unchanged) := rfl
  have hnr : classify tz (some c) e ≠ .rescheduled := by
    rw [hdef]
    split_ifs with h1 h2 h3
    · simp
    · simp
    · exact absurd h3.2 (by simp [hch])
    · simp
  refine ⟨hch, hnr, ?_⟩
  cases hcl : classify tz (some c) e with
  | rescheduled => exact absurd hcl hnr
  | new => simp [emitFor, hcl, Notif.isReschedule]
  | uncancelled => simp [emitFor, hcl, Notif.isReschedule]
  | cancelled => simp [emitFor, hcl, Notif.isReschedule]
  | unchanged => simp [emitFor, hcl]

/-- Cached row paired below with an event whose end time fails to parse. -/
def c10Row : CacheEntry :=
  { uid := "m", title := "mtg", startTime := ⟨7200, none⟩,
    endTime := ⟨10800, none⟩, description := "", location := "",
    organizer := "", attendees := "[]", status := "CONFIRMED",
    hashValue := "" }

/-- Current event whose end timestamp did not parse. -/
def c10Event : Event :=
  { uid := "m", title := "mtg", startTime := some ⟨7260, none⟩,
    endTime := none, attendees := [], description := "", location := "",
    organizer := "", status := "CONFIRMED", alarms := [] }

/-- C10 witness: the theorem applied at the concrete malformed-end pair. -/
theorem c10_unparseable_time_never_reschedules_witness :
    classify 10800 (some c10Row) c10Event ≠ .rescheduled :=
  (c10_unparseable_time_never_reschedules 10800 c10Row c10Event (Or.inr rfl)).2.1

theorem collectReports_flag_mono (attempts : List ReportAttempt) :
    ∀ acc : List Event × Bool, acc.2 = true →
      (collectReports acc attempts).2 = true := by
  induction attempts with
  | nil => intro acc h; exact h
  | cons a rest ih =>
    intro acc h
    unfold collectReports
    simp only [List.foldl_cons]
    by_cases hs : statusOk a.status = true
    · exact ih _ (by simp [hs])
    · have : (if statusOk a.status = true then (acc.1 ++ a.events, true) else acc) = acc := by
        simp [hs]
      rw [this]
      exact ih acc h

theorem collectReports_ok_false (attempts : List ReportAttempt) :
    ∀ init : List Event × Bool, (collectReports init attempts).2 = false →
      collectReports init attempts = init := by
  induction attempts with
  | nil => intro init _; rfl
  | cons a rest ih =>
    intro init h
    unfold collectReports at h ⊢
    simp only [List.foldl_cons] at h ⊢
    by_cases hs : statusOk a.status = true
    · exfalso
      have := collectReports_flag_mono rest (init.1 ++ a.events, true) rfl
      unfold collectReports at this
      simp [hs] at h
      rw [h] at this
      exact Bool.false_ne_true this
    · simp only [hs, if_false, Bool.false_eq_true] at h ⊢
      exact ih init h

theorem getEventsAgg_ok_false (primary fallback : List ReportAttempt)
    (ds : Option (List Event))
    (h : (getEventsAgg primary fallback ds).2 = false) :
    (getEventsAgg primary fallback ds).1 = [] := by
  unfold getEventsAgg at h ⊢
  by_cases h1 : (collectReports ([], false) primary).1 = []
  · simp only [h1, if_true] at h ⊢
    by_cases h2 : (collectReports (collectReports ([], false) primary) fallback).1 = []
    · simp only [h2, if_true] at h ⊢
      cases ds with
      | some evs => simp at h
      | none => exact h2
    · simp only [h2, if_false] at h ⊢
      have := collectReports_ok_false fallback _ h
      rw [this] at h2
      exact absurd h1 h2
  · simp only [h1, if_false] at h ⊢
    have := collectReports_ok_false primary _ h
    rw [this] at h1
    simp at h1

/-- C1: when no underlying calendar request returned a successful status
(`last_events_ok` is false, the model of `request_ok` in
`check_and_notify`), `get_events` aggregates zero events and the tick
produces no notifications at all — in particular no implicit-CANCELLED
classifications — and tombstones nothing: the cache rows are returned
unchanged, even when they hold non-cancelled entries in the window. -/
theorem c1_all_failed_fetch_no_implicit_cancellation
    (hashFn : Event → String) (tz rm window : Int)
    (primary fallback : List ReportAttempt) (ds : Option (List Event))
    (db : List CacheEntry) (todayWall tomorrowEndWall nowWall : Int)
    (channelOk : Bool)
    (h : (getEventsAgg primary fallback ds).2 = false) :
    checkTick hashFn tz rm window (getEventsAgg primary fallback ds).2
        (getEventsAgg primary fallback ds).1 db todayWall tomorrowEndWall
        nowWall channelOk =
      { notifs := [], implicitCancels := [], marked := [], db := db,
        completed := true } := by
  have hev := getEventsAgg_ok_false primary fallback ds h
  rw [hev, h]
  unfold checkTick
  simp only [buildEventsMap, List.foldl_nil, diffLoop]
  have hcond : ¬((false : Bool) = true ∧
      cachedEventsMap db todayWall tomorrowEndWall ≠ []) := by
    intro hc
    exact Bool.false_ne_true hc.1
  simp only [if_true, hcond, if_false]
  simp [updateEventsCache, updateEventsCacheLoop, checkReminders,
    checkRemindersLoop]

/-- A non-cancelled cached row inside the checked window. -/
def c1Row : CacheEntry :=
  { uid := "gone", title := "weekly", startTime := ⟨3600, none⟩,
    endTime := ⟨7200, none⟩, description := "", location := "",
    organizer := "", attendees := "[]", status := "CONFIRMED",
    hashValue := "" }

/-- C1 witness: a fetch whose two REPORT rounds returned statuses 500 and
404 and whose date-search fallback raised leaves a non-cancelled cached
row untouched and emits nothing. -/
theorem c1_all_failed_fetch_no_implicit_cancellation_witness :
    checkTick (fun _ => "h") 10800 15 60
        (getEventsAgg [⟨500, []⟩] [⟨404, []⟩] none).2
        (getEventsAgg [⟨500, []⟩] [⟨404, []⟩] none).1 [c1Row] 0 172799 3600
        true =
      { notifs := [], implicitCancels := [], marked := [], db := [c1Row],
        completed := true } :=
  c1_all_failed_fetch_no_implicit_cancellation (fun _ => "h") 10800 15 60
    [⟨500, []⟩] [⟨404, []⟩] none [c1Row] 0 172799 3600 true (by decide)

theorem markEventCancelled_length (db : List CacheEntry) (uid : String) :
    (markEventCancelled db uid).length = db.length := by
  induction db with
  | nil => rfl
  | cons c rest ih =>
    unfold markEventCancelled
    by_cases h : (c.uid == uid) = true
    · simp [h]
    · simp [h, ih]

theorem markEventCancelled_forall (db : List CacheEntry) (uid : String) :
    List.Forall₂ (fun a b => b = a ∨ b = { a with status := "CANCELLED" }) db
      (markEventCancelled db uid) := by
  induction db with
  | nil => exact List.Forall₂.nil
  | cons c rest ih =>
    unfold markEventCancelled
    by_cases h : (c.uid == uid) = true
    · rw [if_pos h]
      exact List.Forall₂.cons (Or.inr rfl)
        (List.forall₂_same.mpr (fun x _ => Or.inl rfl))
    · rw [if_neg h]
      exact List.Forall₂.cons (Or.inl rfl) ih

theorem markEventCancelled_mem_uid (db : List CacheEntry) (uid : String)
    (c : CacheEntry) (hc : c ∈ db) :
    ∃ c2 ∈ markEventCancelled db uid, c2.uid = c.uid := by
  induction db with
  | nil => cases hc
  | cons a rest ih =>
    unfold markEventCancelled
    by_cases h : (a.uid == uid) = true
    · rw [if_pos h]
      rcases List.mem_cons.mp hc with hh | ht
      · exact ⟨{ a with status := "CANCELLED" }, List.mem_cons_self _ _, by rw [hh]⟩
      · exact ⟨c, List.mem_cons_of_mem _ ht, rfl⟩
    · rw [if_neg h]
      rcases List.mem_cons.mp hc with hh | ht
      · exact ⟨a, List.mem_cons_self _ _, by rw [hh]⟩
      · obtain ⟨c2, hmem, huid⟩ := ih ht
        exact ⟨c2, List.mem_cons_of_mem _ hmem, huid⟩

theorem implicitCancellations_db_spec (relevant : List String)
    (cmap : List (String × CacheEntry)) :
    ∀ db : List CacheEntry,
      ((implicitCancellations relevant cmap db).2.2).length = db.length ∧
      ∀ c ∈ db, ∃ c2 ∈ (implicitCancellations relevant cmap db).2.2,
        c2.uid = c.uid := by
  induction cmap with
  | nil => exact fun db => ⟨rfl, fun c hc => ⟨c, hc, rfl⟩⟩
  | cons p rest ih =>
    intro db
    obtain ⟨uid, centry⟩ := p
    unfold implicitCancellations
    by_cases h1 : relevant.contains uid = true
    · rw [if_pos h1]
      exact ih db
    · rw [if_neg h1]
      by_cases h2 : cachedStatusU centry = "CANCELLED"
      · rw [if_pos h2]
        exact ih db
      · rw [if_neg h2]
        obtain ⟨hlen, hmem⟩ := ih (markEventCancelled db uid)
        refine ⟨?_, ?_⟩
        · simpa [markEventCancelled_length] using hlen
        · intro c hc
          obtain ⟨c2, hmem2, huid2⟩ := markEventCancelled_mem_uid db uid c hc
          obtain ⟨c3, hmem3, huid3⟩ := hmem c2 hmem2
          exact ⟨c3, hmem3, huid3.trans huid2⟩

theorem replaceFirstByUid_length (db : List CacheEntry) (uid : String)
    (entry : CacheEntry) :
    (replaceFirstByUid db uid entry).length = db.length := by
  induction db with
  | nil => rfl
  | cons c rest ih =>
    unfold replaceFirstByUid
    by_cases h : (c.uid == uid) = true
    · simp [h]
    · simp [h, ih]

theorem replaceFirstByUid_mem_uid (db : List CacheEntry) (uid : String)
    (entry : CacheEntry) (hentry : entry.uid = uid) (c : CacheEntry)
    (hc : c ∈ db) :
    ∃ c2 ∈ replaceFirstByUid db uid entry, c2.uid = c.uid := by
  induction db with
  | nil => cases hc
  | cons a rest ih =>
    unfold replaceFirstByUid
    by_cases h : (a.uid == uid) = true
    · rw [if_pos h]
      rcases List.mem_cons.mp hc with hh | ht
      · refine ⟨entry, List.mem_cons_self _ _, ?_⟩
        rw [hentry, hh]
        exact (eq_of_beq h).symm
      · exact ⟨c, List.mem_cons_of_mem _ ht, rfl⟩
    · rw [if_neg h]
      rcases List.mem_cons.mp hc with hh | ht
      · exact ⟨a, List.mem_cons_self _ _, by rw [hh]⟩
      · obtain ⟨c2, hmem, huid⟩ := ih ht
        exact ⟨c2, List.mem_cons_of_mem _ hmem, huid⟩

theorem upsertOne_length_mem (hashFn : Event → String) (db db2 : List CacheEntry)
    (e : Event) (h : upsertOne hashFn db e = some db2) :
    db.length ≤ db2.length ∧ ∀ c ∈ db, ∃ c2 ∈ db2, c2.uid = c.uid := by
  unfold upsertOne at h
  split at h
  case isTrue =>
    have hdb : db = db2 := by injection h
    subst hdb
    exact ⟨le_refl _, fun c hc => ⟨c, hc, rfl⟩⟩
  case isFalse =>
    split at h
    case h_1 =>
      rename_i cs ce hseq heeq
      split at h
      case isTrue =>
        have hdb2 : replaceFirstByUid db e.uid (upsertEntry hashFn e cs ce) = db2 := by
          injection h
        refine ⟨?_, ?_⟩
        · rw [← hdb2, replaceFirstByUid_length]
        · intro c hc
          rw [← hdb2]
          exact replaceFirstByUid_mem_uid db e.uid _ rfl c hc
      case isFalse =>
        have hdb2 : db ++ [upsertEntry hashFn e cs ce] = db2 := by
          injection h
        refine ⟨?_, ?_⟩
        · rw [← hdb2]
          simp
        · intro c hc
          rw [← hdb2]
          exact ⟨c, List.mem_append_left _ hc, rfl⟩
    case h_2 =>
      simp at h

theorem updateEventsCacheLoop_length_mem (hashFn : Event → String)
    (events : List Event) :
    ∀ db db2 : List CacheEntry,
      updateEventsCacheLoop hashFn db events = some db2 →
      db.length ≤ db2.length ∧ ∀ c ∈ db, ∃ c2 ∈ db2, c2.uid = c.uid := by
  induction events with
  | nil =>
    intro db db2 h
    unfold updateEventsCacheLoop at h
    have : db = db2 := by injection h
    subst this
    exact ⟨le_refl _, fun c hc => ⟨c, hc, rfl⟩⟩
  | cons e rest ih =>
    intro db db2 h
    unfold updateEventsCacheLoop at h
    cases hup : upsertOne hashFn db e with
    | none => rw [hup] at h; simp at h
    | some dbm =>
      rw [hup] at h
      obtain ⟨hl1, hm1⟩ := upsertOne_length_mem hashFn db dbm e hup
      obtain ⟨hl2, hm2⟩ := ih dbm db2 h
      refine ⟨le_trans hl1 hl2, ?_⟩
      intro c hc
      obtain ⟨c2, hmem2, huid2⟩ := hm1 c hc
      obtain ⟨c3, hmem3, huid3⟩ := hm2 c2 hmem2
      exact ⟨c3, hmem3, huid3.trans huid2⟩

theorem updateEventsCache_length_mem (hashFn : Event → String)
    (db : List CacheEntry) (events : List Event) :
    db.length ≤ (updateEventsCache hashFn db events).1.length ∧
    ∀ c ∈ db, ∃ c2 ∈ (updateEventsCache hashFn db events).1, c2.uid = c.uid := by
  unfold updateEventsCache
  cases hl : updateEventsCacheLoop hashFn db events with
  | none => exact ⟨le_refl _, fun c hc => ⟨c, hc, rfl⟩⟩
  | some db2 =>
    obtain ⟨h1, h2⟩ := updateEventsCacheLoop_length_mem hashFn events db db2 hl
    exact ⟨h1, h2⟩

theorem checkTick_preserves_rows (hashFn : Event → String) (tz rm window : Int)
    (requestOk : Bool) (currentEvents : List Event) (db : List CacheEntry)
    (todayWall tomorrowEndWall nowWall : Int) (channelOk : Bool) :
    db.length ≤ (checkTick hashFn tz rm window requestOk currentEvents db
        todayWall tomorrowEndWall nowWall channelOk).db.length ∧
    ∀ c ∈ db, ∃ c2 ∈ (checkTick hashFn tz rm window requestOk currentEvents db
        todayWall tomorrowEndWall nowWall channelOk).db, c2.uid = c.uid := by
  simp only [checkTick]
  by_cases hd : (diffLoop tz todayWall (cachedEventsMap db todayWall tomorrowEndWall)
      (buildEventsMap currentEvents)).2.2 = true
  · rw [if_pos hd]
    by_cases hreq : (requestOk = true ∧
        cachedEventsMap db todayWall tomorrowEndWall ≠ [])
    · rw [if_pos hreq]
      obtain ⟨hl1, hm1⟩ := implicitCancellations_db_spec
        (diffLoop tz todayWall (cachedEventsMap db todayWall tomorrowEndWall)
          (buildEventsMap currentEvents)).2.1
        (cachedEventsMap db todayWall tomorrowEndWall) db
      obtain ⟨hl2, hm2⟩ := updateEventsCache_length_mem hashFn
        (implicitCancellations
          (diffLoop tz todayWall (cachedEventsMap db todayWall tomorrowEndWall)
            (buildEventsMap currentEvents)).2.1
          (cachedEventsMap db todayWall tomorrowEndWall) db).2.2
        ((buildEventsMap currentEvents).map Prod.snd)
      by_cases hu : (updateEventsCache hashFn
          (implicitCancellations
            (diffLoop tz todayWall (cachedEventsMap db todayWall tomorrowEndWall)
              (buildEventsMap currentEvents)).2.1
            (cachedEventsMap db todayWall tomorrowEndWall) db).2.2
          ((buildEventsMap currentEvents).map Prod.snd)).2 = true
      all_goals
        first
        | rw [if_pos hu]
        | rw [if_neg hu]
      all_goals
        refine ⟨?_, ?_⟩
        · calc db.length
              = _ := hl1.symm
            _ ≤ _ := hl2
        · intro c hc
          obtain ⟨c2, hmem2, huid2⟩ := hm1 c hc
          obtain ⟨c3, hmem3, huid3⟩ := hm2 c2 hmem2
          exact ⟨c3, hmem3, huid3.trans huid2⟩
    · rw [if_neg hreq]
      obtain ⟨hl2, hm2⟩ := updateEventsCache_length_mem hashFn db
        ((buildEventsMap currentEvents).map Prod.snd)
      by_cases hu : (updateEventsCache hashFn db
          ((buildEventsMap currentEvents).map Prod.snd)).2 = true
      all_goals
        first
        | rw [if_pos hu]
        | rw [if_neg hu]
      all_goals exact ⟨hl2, hm2⟩
  · rw [if_neg hd]
    exact ⟨le_refl _, fun c hc => ⟨c, hc, rfl⟩⟩

/-- C4: the diff engine never deletes a cache row — a tick can only grow
the row list and every old row's uid survives; `_mark_event_cancelled`
flips at most the status of the matching row to CANCELLED in place,
leaving length, order and all other rows intact; a reappearing uid whose
cached row is CANCELLED and whose current status is not classifies
UNCANCELLED (re-emitted as NEW); and an upsert for a uid that already has
a row updates in place without creating a new row. -/
theorem c4_tombstone_never_delete (hashFn : Event → String)
    (tz rm window : Int) (requestOk : Bool) (currentEvents : List Event)
    (db : List CacheEntry) (todayWall tomorrowEndWall nowWall : Int)
    (channelOk : Bool) :
    (db.length ≤ (checkTick hashFn tz rm window requestOk currentEvents db
        todayWall tomorrowEndWall nowWall channelOk).db.length ∧
      ∀ c ∈ db, ∃ c2 ∈ (checkTick hashFn tz rm window requestOk currentEvents
        db todayWall tomorrowEndWall nowWall channelOk).db, c2.uid = c.uid) ∧
    (∀ duid : String, (markEventCancelled db duid).length = db.length ∧
      List.Forall₂ (fun a b => b = a ∨ b = { a with status := "CANCELLED" }) db
        (markEventCancelled db duid)) ∧
    (∀ (c : CacheEntry) (e : Event), cachedStatusU c = "CANCELLED" →
      currentStatus e ≠ "CANCELLED" →
      classify tz (some c) e = Classification.uncancelled) ∧
    (∀ (e : Event) (db2 : List CacheEntry), upsertOne hashFn db e = some db2 →
      (∃ c ∈ db, c.uid = e.uid) → db2.length = db.length) := by
  refine ⟨checkTick_preserves_rows hashFn tz rm window requestOk currentEvents
    db todayWall tomorrowEndWall nowWall channelOk, ?_, ?_, ?_⟩
  · intro duid
    exact ⟨markEventCancelled_length db duid, markEventCancelled_forall db duid⟩
  · intro c e hcst hcur
    have hdef2 : classify tz (some c) e =
        (if cachedStatusU c = "CANCELLED" ∧ currentStatus e ≠ "CANCELLED" then
          Classification.uncancelled
        else if cachedStatusU c ≠ "CANCELLED" ∧ currentStatus e = "CANCELLED" then
          Classification.cancelled
        else if currentStatus e ≠ "CANCELLED" ∧ eventChangedTime tz c e then
          Classification.rescheduled
        else Classification.unchanged) := rfl
    rw [hdef2, if_pos ⟨hcst, hcur⟩]
  · intro e db2 h hex
    unfold upsertOne at h
    split at h
    case isTrue =>
      have hdb : db = db2 := by injection h
      rw [← hdb]
    case isFalse =>
      split at h
      case h_1 =>
        rename_i cs ce hseq heeq
        have hany : (db.any fun c => c.uid == e.uid) = true := by
          rw [List.any_eq_true]
          obtain ⟨c, hc, hcuid⟩ := hex
          exact ⟨c, hc, beq_iff_eq.mpr hcuid⟩
        rw [if_pos hany] at h
        have hdb2 : replaceFirstByUid db e.uid (upsertEntry hashFn e cs ce) = db2 := by
          injection h
        rw [← hdb2, replaceFirstByUid_length]
      case h_2 =>
        simp at h

/-- A cached row whose uid will disappear and then reappear. -/
def c4Row : CacheEntry :=
  { uid := "tomb", title := "sync", startTime := ⟨3600, none⟩,
    endTime := ⟨7200, none⟩, description := "", location := "",
    organizer := "", attendees := "[]", status := "CANCELLED",
    hashValue := "" }

/-- The same uid reappearing with a confirmed status. -/
def c4BackEvent : Event :=
  { uid := "tomb", title := "sync", startTime := some ⟨3600, none⟩,
    endTime := some ⟨7200, none⟩, attendees := [], description := "",
    location := "", organizer := "", status := "CONFIRMED", alarms := [] }

/-- C4 witness: on a concrete one-row cache the tick keeps the row's uid,
and the concrete reappearing pair classifies UNCANCELLED. -/
theorem c4_tombstone_never_delete_witness :
    (∃ c2 ∈ (checkTick (fun _ => "h") 10800 15 60 true [] [c4Row] 0 172799
        3600 true).db, c2.uid = c4Row.uid) ∧
    classify 10800 (some c4Row) c4BackEvent = Classification.uncancelled :=
  ⟨(c4_tombstone_never_delete (fun _ => "h") 10800 15 60 true [] [c4Row] 0
      172799 3600 true).1.2 c4Row (by simp),
   (c4_tombstone_never_delete (fun _ => "h") 10800 15 60 true [] [c4Row] 0
      172799 3600 true).2.2.1 c4Row c4BackEvent (by decide) (by decide)⟩

theorem digestTick_eq (hourCfg : Int) (user : String)
    (log : List (String × Int)) (inp : DigestInput) :
    digestTick hourCfg user log inp =
      if inp.nowWall < dayOf inp.nowWall * 86400 + clampHour hourCfg * 3600 then
        (0, log)
      else if (user, dayOf inp.nowWall) ∈ log then (0, log)
      else if inp.fetchOk = false then (0, log)
      else if inp.channelOk = false then (0, log)
      else (1, log ++ [(user, dayOf inp.nowWall)]) := rfl

theorem digestTick_cases (hourCfg : Int) (user : String)
    (log : List (String × Int)) (inp : DigestInput) :
    digestTick hourCfg user log inp = (0, log) ∨
    digestTick hourCfg user log inp = (1, log ++ [(user, dayOf inp.nowWall)]) := by
  rw [digestTick_eq]
  split_ifs <;> simp

theorem digestTick_mem_zero (hourCfg : Int) (user : String)
    (log : List (String × Int)) (inp : DigestInput)
    (hmem : (user, dayOf inp.nowWall) ∈ log) :
    digestTick hourCfg user log inp = (0, log) := by
  rw [digestTick_eq]
  by_cases h1 : inp.nowWall < dayOf inp.nowWall * 86400 + clampHour hourCfg * 3600
  · rw [if_pos h1]
  · rw [if_neg h1, if_pos hmem]

theorem digestRun_sent_zero (hourCfg : Int) (user : String) (d : Int)
    (ticks : List DigestInput) (hd : ∀ inp ∈ ticks, dayOf inp.nowWall = d) :
    ∀ log : List (String × Int), (user, d) ∈ log →
      (digestRun hourCfg user log ticks).1 = 0 := by
  induction ticks with
  | nil => intro log _; rfl
  | cons inp rest ih =>
    intro log hmem
    have hday := hd inp (List.mem_cons_self _ _)
    have htick : digestTick hourCfg user log inp = (0, log) :=
      digestTick_mem_zero hourCfg user log inp (by rw [hday]; exact hmem)
    unfold digestRun
    rw [htick]
    simpa using ih (fun i hi => hd i (List.mem_cons_of_mem _ hi)) log hmem

theorem digestRun_le_one (hourCfg : Int) (user : String) (d : Int)
    (ticks : List DigestInput) (hd : ∀ inp ∈ ticks, dayOf inp.nowWall = d) :
    ∀ log : List (String × Int), (digestRun hourCfg user log ticks).1 ≤ 1 := by
  induction ticks with
  | nil => intro log; simp [digestRun]
  | cons inp rest ih =>
    intro log
    have hday := hd inp (List.mem_cons_self _ _)
    have hrest : ∀ i ∈ rest, dayOf i.nowWall = d :=
      fun i hi => hd i (List.mem_cons_of_mem _ hi)
    unfold digestRun
    rcases digestTick_cases hourCfg user log inp with h | h
    · rw [h]
      simpa using ih hrest log
    · rw [h]
      have hzero : (digestRun hourCfg user (log ++ [(user, dayOf inp.nowWall)])
          rest).1 = 0 := by
        apply digestRun_sent_zero hourCfg user d rest hrest
        rw [← hday]
        exact List.mem_append_right _ (List.mem_singleton.mpr rfl)
      simp [hzero]

/-- C5: the daily digest is sent at most once per user per calendar date,
no matter how many ticks occur (the log write after a successful delivery
always succeeds in this model): over any sequence of ticks falling on one
date the total number of sends is at most one; a tick before the
configured hour returns without sending; a tick that sends writes the
`DailyDigestLog` row for (user, date); and a tick that finds that row
returns without sending and without touching the log. -/
theorem c5_digest_at_most_once_per_day (hourCfg : Int) (user : String)
    (log0 : List (String × Int)) (ticks : List DigestInput) (d : Int)
    (hd : ∀ inp ∈ ticks, dayOf inp.nowWall = d) :
    (digestRun hourCfg user log0 ticks).1 ≤ 1 ∧
    (∀ (log : List (String × Int)) (inp : DigestInput),
      inp.nowWall < dayOf inp.nowWall * 86400 + clampHour hourCfg * 3600 →
      digestTick hourCfg user log inp = (0, log)) ∧
    (∀ (log : List (String × Int)) (inp : DigestInput),
      (digestTick hourCfg user log inp).1 = 1 →
      (user, dayOf inp.nowWall) ∈ (digestTick hourCfg user log inp).2) ∧
    (∀ (log : List (String × Int)) (inp : DigestInput),
      (user, dayOf inp.nowWall) ∈ log →
      digestTick hourCfg user log inp = (0, log)) := by
  refine ⟨digestRun_le_one hourCfg user d ticks hd log0, ?_, ?_, ?_⟩
  · intro log inp hbefore
    rw [digestTick_eq, if_pos hbefore]
  · intro log inp hone
    rcases digestTick_cases hourCfg user log inp with h | h
    · rw [h] at hone
      simp at hone
    · rw [h]
      exact List.mem_append_right _ (List.mem_singleton.mpr rfl)
  · exact fun log inp hmem => digestTick_mem_zero hourCfg user log inp hmem

/-- C5 witness: three concrete ticks on one date — 01:00 (before the 09:00
gate), 09:00 (sends), 10:00 (suppressed by the log row) — deliver at most
one digest. -/
theorem c5_digest_at_most_once_per_day_witness :
    (digestRun 9 "u" []
      [⟨3600, true, true⟩, ⟨32400, true, true⟩, ⟨36000, true, true⟩]).1 ≤ 1 :=
  (c5_digest_at_most_once_per_day 9 "u" []
    [⟨3600, true, true⟩, ⟨32400, true, true⟩, ⟨36000, true, true⟩] 0
    (by decide)).1

theorem queryStamp_toLocal (tz : Int) (d : PyDateTime) :
    queryStamp (toLocal tz d) = utcInstant tz d := by
  cases h : d.offset with
  | none => simp [queryStamp, toLocal, utcInstant, h]
  | some o => simp [queryStamp, toLocal, utcInstant, h]

/-- C7: for every fetch window, after the localization `get_events`
performs on the caller's window (naive values localized to the configured
zone, aware values converted), the wire query document is the calendar
REPORT template carrying the window's start and end as their UTC instants
rendered in basic format with a trailing Z — independent of the caller's
timezone offset and also when the caller supplies naive timestamps. -/
theorem c7_wire_query_utc_basic_format (tz : Int) (s e : PyDateTime) :
    buildCalendarQuery (toLocal tz s) (toLocal tz e) =
      calendarQueryXml (formatBasic (utcInstant tz s) ++ "Z")
        (formatBasic (utcInstant tz e) ++ "Z") := by
  unfold buildCalendarQuery calendarQueryXml
  rw [queryStamp_toLocal, queryStamp_toLocal]

theorem cleanTokenL_no_space (l : List Char) :
    ∀ ch ∈ cleanTokenL l, isPySpace ch = false := by
  intro ch hch
  unfold cleanTokenL at hch
  split at hch
  · cases hch
  · have := List.mem_takeWhile_imp hch
    simpa using this

/-- C6 counterexample: the raw value `mailto:alice@example.com
bob@example.com` is collapsed to its first token when parsed as an
attendee, but keeps its embedded whitespace and second token when parsed
as an organizer — the cleanup is not the same for the two fields. -/
theorem c6_organizer_not_collapsed :
    parseAttendeeStructured "mailto:alice@example.com bob@example.com" =
      "alice@example.com" ∧
    parseOrganizerStructured "mailto:alice@example.com bob@example.com" =
      "alice@example.com bob@example.com" ∧
    parseOrganizerStructured "mailto:alice@example.com bob@example.com" ≠
      parseAttendeeStructured "mailto:alice@example.com bob@example.com" := by
  refine ⟨?_, ?_, ?_⟩ <;> decide

/-- C6 (amended): both fields get the case-insensitive mailto: strip, but
only attendee values additionally get the whitespace cleanup: the attendee
result never contains a whitespace character, while the organizer value in
the structured (and alternate-client) parse path is the raw value with at
most the 7-character marker removed, remainder verbatim. -/
theorem c6_attendee_cleanup_organizer_verbatim (raw : String) :
    (hasMailtoMark raw.data = true →
      parseAttendeeStructured raw = String.mk (cleanTokenL (raw.data.drop 7)) ∧
      parseOrganizerStructured raw = String.mk (raw.data.drop 7)) ∧
    (hasMailtoMark raw.data = false →
      parseAttendeeStructured raw = String.mk (cleanTokenL raw.data) ∧
      parseOrganizerStructured raw = raw) ∧
    (∀ ch ∈ (parseAttendeeStructured raw).data, isPySpace ch = false) := by
  refine ⟨?_, ?_, ?_⟩
  · intro hm
    unfold parseAttendeeStructured parseOrganizerStructured stripMailtoL
    rw [if_pos hm]
    exact ⟨rfl, rfl⟩
  · intro hm
    unfold parseAttendeeStructured parseOrganizerStructured stripMailtoL
    rw [if_neg (by simp [hm])]
    exact ⟨rfl, rfl⟩
  · intro ch hch
    exact cleanTokenL_no_space _ ch hch

/-- C6 witness: the amended theorem at a concrete upper-case marker shows
the organizer path strips `MAILTO:` case-insensitively and keeps the rest
verbatim. -/
theorem c6_attendee_cleanup_organizer_verbatim_witness :
    parseOrganizerStructured "MAILTO:carol@example.com" = "carol@example.com" :=
  (((c6_attendee_cleanup_organizer_verbatim "MAILTO:carol@example.com").1
    (by decide)).2).trans (by decide)

theorem eventReminderNotifs_eq (tz rm window nowWall : Int) (e : Event)
    (st : PyDateTime) :
    eventReminderNotifs tz rm window nowWall e st =
      match firstTriggeredAlarm tz window nowWall e.alarms with
      | some _ => [Notif.reminder e.title (toLocal tz st) e.location]
      | none =>
        if rm > 0 ∧ e.alarms = [] ∧
            inWindow ((toLocal tz st).wall - nowWall - rm * 60) window then
          [Notif.reminder e.title (toLocal tz st) e.location]
        else if inWindow ((toLocal tz st).wall - nowWall) window then
          [Notif.meetingStart e.title (toLocal tz st) e.location]
        else [] := rfl

theorem firstTriggeredAlarm_eq_find (tz window nowWall : Int)
    (alarms : List (Option PyDateTime)) :
    firstTriggeredAlarm tz window nowWall alarms =
      (alarms.filterMap id).find?
        (fun a => inWindow ((toLocal tz a).wall - nowWall) window) := by
  induction alarms with
  | nil => rfl
  | cons a rest ih =>
    cases a with
    | none =>
      unfold firstTriggeredAlarm
      simpa using ih
    | some x =>
      have hfm : (some x :: rest).filterMap (@id (Option PyDateTime)) =
          x :: rest.filterMap id := by simp
      unfold firstTriggeredAlarm
      rw [hfm, List.find?_cons]
      by_cases h : inWindow ((toLocal tz x).wall - nowWall) window = true
      · rw [if_pos h]
        simp [h]
      · rw [if_neg h]
        simp only [h, cond_false]
        exact ih

/-- C9: per event and tick, at most one reminder-class notification
fires; when some alarm trigger falls within `[now, now+window)` the
REMINDER fires for the first such (parseable) alarm and nothing else is
evaluated — the alarm scan is exactly a first-match search; the fixed
lead-time fallback can only have fired when the event has no alarms at
all (and the configured lead is positive, with the lead instant in the
window); and the start-of-meeting notice fires only when no alarm
triggered, the fallback did not fire, and the start itself falls in the
tick window. -/
theorem c9_at_most_one_reminder_per_event (tz rm window nowWall : Int)
    (e : Event) (st : PyDateTime) :
    (eventReminderNotifs tz rm window nowWall e st).length ≤ 1 ∧
    (firstTriggeredAlarm tz window nowWall e.alarms =
      (e.alarms.filterMap id).find?
        (fun a => inWindow ((toLocal tz a).wall - nowWall) window)) ∧
    (∀ a : PyDateTime, firstTriggeredAlarm tz window nowWall e.alarms = some a →
      eventReminderNotifs tz rm window nowWall e st =
        [Notif.reminder e.title (toLocal tz st) e.location]) ∧
    (firstTriggeredAlarm tz window nowWall e.alarms = none →
      eventReminderNotifs tz rm window nowWall e st =
        [Notif.reminder e.title (toLocal tz st) e.location] →
      rm > 0 ∧ e.alarms = [] ∧
        inWindow ((toLocal tz st).wall - nowWall - rm * 60) window = true) ∧
    (eventReminderNotifs tz rm window nowWall e st =
        [Notif.meetingStart e.title (toLocal tz st) e.location] →
      firstTriggeredAlarm tz window nowWall e.alarms = none ∧
        ¬(rm > 0 ∧ e.alarms = [] ∧
          inWindow ((toLocal tz st).wall - nowWall - rm * 60) window = true) ∧
        inWindow ((toLocal tz st).wall - nowWall) window = true) := by
  refine ⟨?_, firstTriggeredAlarm_eq_find tz window nowWall e.alarms, ?_, ?_, ?_⟩
  · rw [eventReminderNotifs_eq]
    cases firstTriggeredAlarm tz window nowWall e.alarms with
    | some a => simp
    | none => split_ifs <;> simp
  · intro a ha
    rw [eventReminderNotifs_eq, ha]
  · intro hnone hout
    rw [eventReminderNotifs_eq, hnone] at hout
    split_ifs at hout with h1 h2
    all_goals
      first
      | exact ⟨h1.1, h1.2.1, h1.2.2⟩
      | simp at hout
  · intro hout
    rw [eventReminderNotifs_eq] at hout
    cases hfa : firstTriggeredAlarm tz window nowWall e.alarms with
    | some a =>
      rw [hfa] at hout
      simp at hout
    | none =>
      rw [hfa] at hout
      split_ifs at hout with h1 h2
      all_goals
        first
        | exact ⟨rfl, h1, h2⟩
        | simp at hout

/-- Event with one alarm 15 minutes before its 10:00 start. -/
def c9Event : Event :=
  { uid := "b", title := "demo", startTime := some ⟨36000, none⟩,
    endTime := some ⟨37800, none⟩, attendees := [], description := "",
    location := "room", organizer := "", status := "CONFIRMED",
    alarms := [some ⟨35100, none⟩] }

/-- C9 witness: for the spec scenario — tick window `[T-15m, T-15m+60s)` —
exactly one REMINDER fires for the alarm at `T-15m`. -/
theorem c9_at_most_one_reminder_per_event_witness :
    eventReminderNotifs 10800 15 60 35100 c9Event ⟨36000, none⟩ =
      [Notif.reminder "demo" (toLocal 10800 ⟨36000, none⟩) "room"] :=
  (c9_at_most_one_reminder_per_event 10800 15 60 35100 c9Event
    ⟨36000, none⟩).2.2.1 ⟨35100, none⟩ (by decide)

/-- Forget the stored `hash_value` of a row. -/
def eraseHash (c : CacheEntry) : CacheEntry := { c with hashValue := "" }

/-- Two cache states that agree row-by-row on every field except the
stored `hash_value`. -/
def HashAgnostic (db1 db2 : List CacheEntry) : Prop :=
  List.Forall₂ (fun a b => eraseHash a = eraseHash b) db1 db2

theorem eraseHash_fields (a b : CacheEntry) (h : eraseHash a = eraseHash b) :
    a.uid = b.uid ∧ a.title = b.title ∧ a.startTime = b.startTime ∧
    a.endTime = b.endTime ∧ a.description = b.description ∧
    a.location = b.location ∧ a.organizer = b.organizer ∧
    a.attendees = b.attendees ∧ a.status = b.status := by
  cases a
  cases b
  simp [eraseHash] at h
  simp_all

theorem eraseHash_setStatus (a b : CacheEntry)
    (h : eraseHash a = eraseHash b) (s : String) :
    eraseHash { a with status := s } = eraseHash { b with status := s } := by
  cases a
  cases b
  simp [eraseHash] at h ⊢
  simp_all

theorem classify_some_def (tz : Int) (c : CacheEntry) (e : Event) :
    classify tz (some c) e =
      (if cachedStatusU c = "CANCELLED" ∧ currentStatus e ≠ "CANCELLED" then
        Classification.uncancelled
      else if cachedStatusU c ≠ "CANCELLED" ∧ currentStatus e = "CANCELLED" then
        Classification.cancelled
      else if currentStatus e ≠ "CANCELLED" ∧ eventChangedTime tz c e then
        Classification.rescheduled
      else Classification.unchanged) := rfl

theorem cachedStatusU_eraseHash (a b : CacheEntry)
    (h : eraseHash a = eraseHash b) : cachedStatusU a = cachedStatusU b := by
  unfold cachedStatusU
  rw [(eraseHash_fields a b h).2.2.2.2.2.2.2.2]

theorem eventChangedTime_eraseHash (tz : Int) (a b : CacheEntry) (e : Event)
    (h : eraseHash a = eraseHash b) :
    eventChangedTime tz a e = eventChangedTime tz b e := by
  obtain ⟨-, -, hst, hen, -⟩ := eraseHash_fields a b h
  unfold eventChangedTime
  rw [hst, hen]

theorem classify_eraseHash (tz : Int) (a b : CacheEntry) (e : Event)
    (h : eraseHash a = eraseHash b) :
    classify tz (some a) e = classify tz (some b) e := by
  rw [classify_some_def, classify_some_def, cachedStatusU_eraseHash a b h,
    eventChangedTime_eraseHash tz a b e h]

theorem emitFor_eraseHash (tz : Int) (a b : CacheEntry) (e : Event)
    (h : eraseHash a = eraseHash b) :
    emitFor tz (some a) e = emitFor tz (some b) e := by
  obtain ⟨-, hti, hst, hen, -⟩ := eraseHash_fields a b h
  unfold emitFor
  rw [classify_eraseHash tz a b e h]
  cases classify tz (some b) e <;> simp [hti, hst, hen]

theorem filter_window_agnostic (winS winE : Int) :
    ∀ db1 db2 : List CacheEntry,
      List.Forall₂ (fun a b => eraseHash a = eraseHash b) db1 db2 →
      List.Forall₂ (fun a b => eraseHash a = eraseHash b)
        (db1.filter (rowInWindow winS winE)) (db2.filter (rowInWindow winS winE)) := by
  intro db1
  induction db1 with
  | nil =>
    intro db2 h
    cases h
    exact List.Forall₂.nil
  | cons a t1 ih =>
    intro db2 h
    cases h with
    | cons hab ht =>
      rename_i b t2
      have hw : rowInWindow winS winE a = rowInWindow winS winE b := by
        unfold rowInWindow
        rw [(eraseHash_fields a b hab).2.2.1]
      simp only [List.filter_cons]
      rw [← hw]
      by_cases hcase : rowInWindow winS winE a = true
      · rw [hcase]
        exact List.Forall₂.cons hab (ih t2 ht)
      · simp only [Bool.not_eq_true] at hcase
        rw [hcase]
        exact ih t2 ht

theorem keys_any_agnostic (k : String) :
    ∀ m1 m2 : List (String × CacheEntry),
      List.Forall₂ (fun p q => p.1 = q.1 ∧ eraseHash p.2 = eraseHash q.2) m1 m2 →
      (m1.any fun p => p.1 == k) = (m2.any fun p => p.1 == k) := by
  intro m1
  induction m1 with
  | nil =>
    intro m2 h
    cases h
    rfl
  | cons p t1 ih =>
    intro m2 h
    cases h with
    | cons hpq ht =>
      rename_i q t2
      simp only [List.any_cons, hpq.1, ih t2 ht]

theorem map_overwrite_agnostic (k : String) (v1 v2 : CacheEntry)
    (hv : eraseHash v1 = eraseHash v2) :
    ∀ m1 m2 : List (String × CacheEntry),
      List.Forall₂ (fun p q => p.1 = q.1 ∧ eraseHash p.2 = eraseHash q.2) m1 m2 →
      List.Forall₂ (fun p q => p.1 = q.1 ∧ eraseHash p.2 = eraseHash q.2)
        (m1.map (fun p => if p.1 == k then (k, v1) else p))
        (m2.map (fun p => if p.1 == k then (k, v2) else p)) := by
  intro m1
  induction m1 with
  | nil =>
    intro m2 h
    cases h
    exact List.Forall₂.nil
  | cons p t1 ih =>
    intro m2 h
    cases h with
    | cons hpq ht =>
      rename_i q t2
      simp only [List.map_cons]
      refine List.Forall₂.cons ?_ (ih t2 ht)
      rw [← hpq.1]
      by_cases hk : (p.1 == k) = true
      · rw [if_pos hk, if_pos hk]
        exact ⟨rfl, hv⟩
      · rw [if_neg hk, if_neg hk]
        exact hpq

theorem forall2_append_pairs {α : Type} {R : α → α → Prop} :
    ∀ {l1 l2 u1 u2 : List α}, List.Forall₂ R l1 l2 → List.Forall₂ R u1 u2 →
      List.Forall₂ R (l1 ++ u1) (l2 ++ u2) := by
  intro l1
  induction l1 with
  | nil =>
    intro l2 u1 u2 h hu
    cases h
    exact hu
  | cons a t1 ih =>
    intro l2 u1 u2 h hu
    cases h with
    | cons hab ht =>
      exact List.Forall₂.cons hab (ih ht hu)

theorem insertLast_agnostic (k : String) (v1 v2 : CacheEntry)
    (hv : eraseHash v1 = eraseHash v2)
    (m1 m2 : List (String × CacheEntry))
    (h : List.Forall₂ (fun p q => p.1 = q.1 ∧ eraseHash p.2 = eraseHash q.2) m1 m2) :
    List.Forall₂ (fun p q => p.1 = q.1 ∧ eraseHash p.2 = eraseHash q.2)
      (insertLast m1 k v1) (insertLast m2 k v2) := by
  unfold insertLast
  rw [← keys_any_agnostic k m1 m2 h]
  by_cases hany : (m1.any fun p => p.1 == k) = true
  · rw [if_pos hany, if_pos hany]
    exact map_overwrite_agnostic k v1 v2 hv m1 m2 h
  · rw [if_neg hany, if_neg hany]
    exact forall2_append_pairs h (List.Forall₂.cons ⟨rfl, hv⟩ List.Forall₂.nil)

theorem cacheFold_agnostic :
    ∀ rows1 rows2 : List CacheEntry,
      List.Forall₂ (fun a b => eraseHash a = eraseHash b) rows1 rows2 →
      ∀ acc1 acc2 : List (String × CacheEntry),
        List.Forall₂ (fun p q => p.1 = q.1 ∧ eraseHash p.2 = eraseHash q.2) acc1 acc2 →
        List.Forall₂ (fun p q => p.1 = q.1 ∧ eraseHash p.2 = eraseHash q.2)
          (rows1.foldl (fun m c => if c.uid == "" then m else insertLast m c.uid c) acc1)
          (rows2.foldl (fun m c => if c.uid == "" then m else insertLast m c.uid c) acc2) := by
  intro rows1
  induction rows1 with
  | nil =>
    intro rows2 h acc1 acc2 hacc
    cases h
    exact hacc
  | cons a t1 ih =>
    intro rows2 h acc1 acc2 hacc
    cases h with
    | cons hab ht =>
      rename_i b t2
      simp only [List.foldl_cons]
      have huid := (eraseHash_fields a b hab).1
      rw [← huid]
      by_cases hz : (a.uid == "") = true
      · rw [if_pos hz, if_pos hz]
        exact ih t2 ht acc1 acc2 hacc
      · rw [if_neg hz, if_neg hz]
        refine ih t2 ht _ _ ?_
        have := insertLast_agnostic a.uid a b hab acc1 acc2 hacc
        rw [huid] at this
        rw [huid]
        exact this

theorem cachedEventsMap_agnostic (winS winE : Int)
    (db1 db2 : List CacheEntry)
    (h : List.Forall₂ (fun a b => eraseHash a = eraseHash b) db1 db2) :
    List.Forall₂ (fun p q => p.1 = q.1 ∧ eraseHash p.2 = eraseHash q.2)
      (cachedEventsMap db1 winS winE) (cachedEventsMap db2 winS winE) := by
  unfold cachedEventsMap
  exact cacheFold_agnostic _ _ (filter_window_agnostic winS winE db1 db2 h)
    [] [] List.Forall₂.nil

theorem lookupMap_agnostic (k : String) :
    ∀ m1 m2 : List (String × CacheEntry),
      List.Forall₂ (fun p q => p.1 = q.1 ∧ eraseHash p.2 = eraseHash q.2) m1 m2 →
      (lookupMap m1 k = none ∧ lookupMap m2 k = none) ∨
      (∃ c1 c2, lookupMap m1 k = some c1 ∧ lookupMap m2 k = some c2 ∧
        eraseHash c1 = eraseHash c2) := by
  intro m1
  induction m1 with
  | nil =>
    intro m2 h
    cases h
    left
    exact ⟨rfl, rfl⟩
  | cons p t1 ih =>
    intro m2 h
    cases h with
    | cons hpq ht =>
      rename_i q t2
      by_cases hk : (p.1 == k) = true
      · right
        have hk2 : (q.1 == k) = true := by rw [← hpq.1]; exact hk
        refine ⟨p.2, q.2, ?_, ?_, hpq.2⟩
        · simp [lookupMap, List.find?_cons, hk]
        · simp [lookupMap, List.find?_cons, hk2]
      · have hk2 : ¬(q.1 == k) = true := by rw [← hpq.1]; exact hk
        have h1 : lookupMap (p :: t1) k = lookupMap t1 k := by
          simp [lookupMap, List.find?_cons, hk]
        have h2 : lookupMap (q :: t2) k = lookupMap t2 k := by
          simp [lookupMap, List.find?_cons, hk2]
        rw [h1, h2]
        exact ih t2 ht

theorem diffLoop_agnostic (tz todayWall : Int) :
    ∀ (pairs : List (String × Event)) (cm1 cm2 : List (String × CacheEntry)),
      List.Forall₂ (fun p q => p.1 = q.1 ∧ eraseHash p.2 = eraseHash q.2) cm1 cm2 →
      diffLoop tz todayWall cm1 pairs = diffLoop tz todayWall cm2 pairs := by
  intro pairs
  induction pairs with
  | nil => intro cm1 cm2 _; rfl
  | cons pe rest ih =>
    intro cm1 cm2 h
    obtain ⟨uid, e⟩ := pe
    cases hst : e.startTime with
    | none => simp [diffLoop, hst]
    | some st =>
      simp only [diffLoop, hst]
      by_cases hday : (dayOf st.wall = dayOf todayWall ∨
          dayOf st.wall = dayOf todayWall + 1)
      · rw [if_pos hday, if_pos hday]
        have hemit : emitFor tz (lookupMap cm1 uid) e =
            emitFor tz (lookupMap cm2 uid) e := by
          rcases lookupMap_agnostic uid cm1 cm2 h with ⟨h1, h2⟩ | ⟨c1, c2, h1, h2, hc⟩
          · rw [h1, h2]
          · rw [h1, h2]
            exact emitFor_eraseHash tz c1 c2 e hc
        rw [hemit, ih cm1 cm2 h]
      · rw [if_neg hday, if_neg hday]
        exact ih cm1 cm2 h

theorem markEventCancelled_agnostic :
    ∀ db1 db2 : List CacheEntry,
      List.Forall₂ (fun a b => eraseHash a = eraseHash b) db1 db2 →
      ∀ uid : String,
        List.Forall₂ (fun a b => eraseHash a = eraseHash b)
          (markEventCancelled db1 uid) (markEventCancelled db2 uid) := by
  intro db1
  induction db1 with
  | nil =>
    intro db2 h uid
    cases h
    exact List.Forall₂.nil
  | cons a t1 ih =>
    intro db2 h uid
    cases h with
    | cons hab ht =>
      rename_i b t2
      unfold markEventCancelled
      have huideq : (b.uid == uid) = (a.uid == uid) := by
        rw [(eraseHash_fields a b hab).1]
      rw [huideq]
      by_cases hk : (a.uid == uid) = true
      · rw [if_pos hk, if_pos hk]
        exact List.Forall₂.cons (eraseHash_setStatus a b hab "CANCELLED") ht
      · rw [if_neg hk, if_neg hk]
        exact List.Forall₂.cons hab (ih t2 ht uid)

theorem implicitCancellations_agnostic (relevant : List String) :
    ∀ cm1 cm2 : List (String × CacheEntry),
      List.Forall₂ (fun p q => p.1 = q.1 ∧ eraseHash p.2 = eraseHash q.2) cm1 cm2 →
      ∀ db1 db2 : List CacheEntry,
        List.Forall₂ (fun a b => eraseHash a = eraseHash b) db1 db2 →
        (implicitCancellations relevant cm1 db1).1 =
          (implicitCancellations relevant cm2 db2).1 ∧
        (implicitCancellations relevant cm1 db1).2.1 =
          (implicitCancellations relevant cm2 db2).2.1 ∧
        List.Forall₂ (fun a b => eraseHash a = eraseHash b)
          (implicitCancellations relevant cm1 db1).2.2
          (implicitCancellations relevant cm2 db2).2.2 := by
  intro cm1
  induction cm1 with
  | nil =>
    intro cm2 h db1 db2 hdb
    cases h
    exact ⟨rfl, rfl, hdb⟩
  | cons p t1 ih =>
    intro cm2 h db1 db2 hdb
    cases h with
    | cons hpq ht =>
      rename_i q t2
      obtain ⟨uid1, c1⟩ := p
      obtain ⟨uid2, c2⟩ := q
      obtain ⟨hkey, hval⟩ := hpq
      simp only at hkey hval
      subst hkey
      unfold implicitCancellations
      by_cases hrel : relevant.contains uid1 = true
      · rw [if_pos hrel, if_pos hrel]
        exact ih t2 ht db1 db2 hdb
      · rw [if_neg hrel, if_neg hrel]
        rw [← cachedStatusU_eraseHash c1 c2 hval]
        by_cases hcs : cachedStatusU c1 = "CANCELLED"
        · rw [if_pos hcs, if_pos hcs]
          exact ih t2 ht db1 db2 hdb
        · rw [if_neg hcs, if_neg hcs]
          obtain ⟨h1, h2, h3⟩ := ih t2 ht (markEventCancelled db1 uid1)
            (markEventCancelled db2 uid1)
            (markEventCancelled_agnostic db1 db2 hdb uid1)
          obtain ⟨-, hti, hst, hen, -⟩ := eraseHash_fields c1 c2 hval
          refine ⟨?_, ?_, h3⟩
          · simp only [h1, hti, hst, hen]
          · simp only [h2]

theorem dbAny_uid_agnostic (u : String) :
    ∀ db1 db2 : List CacheEntry,
      List.Forall₂ (fun a b => eraseHash a = eraseHash b) db1 db2 →
      (db1.any fun c => c.uid == u) = (db2.any fun c => c.uid == u) := by
  intro db1
  induction db1 with
  | nil =>
    intro db2 h
    cases h
    rfl
  | cons a t1 ih =>
    intro db2 h
    cases h with
    | cons hab ht =>
      rename_i b t2
      simp only [List.any_cons, (eraseHash_fields a b hab).1, ih t2 ht]

theorem replaceFirstByUid_agnostic (u : String) (entry : CacheEntry) :
    ∀ db1 db2 : List CacheEntry,
      List.Forall₂ (fun a b => eraseHash a = eraseHash b) db1 db2 →
      List.Forall₂ (fun a b => eraseHash a = eraseHash b)
        (replaceFirstByUid db1 u entry) (replaceFirstByUid db2 u entry) := by
  intro db1
  induction db1 with
  | nil =>
    intro db2 h
    cases h
    exact List.Forall₂.nil
  | cons a t1 ih =>
    intro db2 h
    cases h with
    | cons hab ht =>
      rename_i b t2
      unfold replaceFirstByUid
      have huideq : (b.uid == u) = (a.uid == u) := by
        rw [(eraseHash_fields a b hab).1]
      rw [huideq]
      by_cases hk : (a.uid == u) = true
      · rw [if_pos hk, if_pos hk]
        exact List.Forall₂.cons rfl ht
      · rw [if_neg hk, if_neg hk]
        exact List.Forall₂.cons hab (ih t2 ht)

theorem upsertOne_agnostic (hashFn : Event → String) (e : Event)
    (db1 db2 : List CacheEntry)
    (h : List.Forall₂ (fun a b => eraseHash a = eraseHash b) db1 db2) :
    (upsertOne hashFn db1 e = none ∧ upsertOne hashFn db2 e = none) ∨
    (∃ d1 d2, upsertOne hashFn db1 e = some d1 ∧
      upsertOne hashFn db2 e = some d2 ∧
      List.Forall₂ (fun a b => eraseHash a = eraseHash b) d1 d2) := by
  unfold upsertOne
  by_cases hz : (e.uid == "") = true
  · rw [if_pos hz, if_pos hz]
    right
    exact ⟨db1, db2, rfl, rfl, h⟩
  · rw [if_neg hz, if_neg hz]
    cases hst : e.startTime with
    | none =>
      left
      exact ⟨rfl, rfl⟩
    | some st =>
      cases hen : e.endTime with
      | none =>
        left
        exact ⟨rfl, rfl⟩
      | some en =>
        right
        dsimp only
        rw [← dbAny_uid_agnostic e.uid db1 db2 h]
        by_cases hany : (db1.any fun c => c.uid == e.uid) = true
        · rw [if_pos hany, if_pos hany]
          exact ⟨_, _, rfl, rfl,
            replaceFirstByUid_agnostic e.uid (upsertEntry hashFn e st en)
              db1 db2 h⟩
        · rw [if_neg hany, if_neg hany]
          exact ⟨_, _, rfl, rfl,
            forall2_append_pairs h (List.Forall₂.cons rfl List.Forall₂.nil)⟩

theorem updateEventsCacheLoop_agnostic (hashFn : Event → String) :
    ∀ (events : List Event) (db1 db2 : List CacheEntry),
      List.Forall₂ (fun a b => eraseHash a = eraseHash b) db1 db2 →
      (updateEventsCacheLoop hashFn db1 events = none ∧
        updateEventsCacheLoop hashFn db2 events = none) ∨
      (∃ d1 d2, updateEventsCacheLoop hashFn db1 events = some d1 ∧
        updateEventsCacheLoop hashFn db2 events = some d2 ∧
        List.Forall₂ (fun a b => eraseHash a = eraseHash b) d1 d2) := by
  intro events
  induction events with
  | nil =>
    intro db1 db2 h
    right
    exact ⟨db1, db2, rfl, rfl, h⟩
  | cons e rest ih =>
    intro db1 db2 h
    unfold updateEventsCacheLoop
    rcases upsertOne_agnostic hashFn e db1 db2 h with ⟨h1, h2⟩ | ⟨d1, d2, h1, h2, hd⟩
    · left
      rw [h1, h2]
      exact ⟨rfl, rfl⟩
    · rw [h1, h2]
      exact ih d1 d2 hd

theorem updateEventsCache_agnostic (hashFn : Event → String)
    (events : List Event) (db1 db2 : List CacheEntry)
    (h : List.Forall₂ (fun a b => eraseHash a = eraseHash b) db1 db2) :
    (updateEventsCache hashFn db1 events).2 =
      (updateEventsCache hashFn db2 events).2 ∧
    List.Forall₂ (fun a b => eraseHash a = eraseHash b)
      (updateEventsCache hashFn db1 events).1
      (updateEventsCache hashFn db2 events).1 := by
  unfold updateEventsCache
  rcases updateEventsCacheLoop_agnostic hashFn events db1 db2 h with
    ⟨h1, h2⟩ | ⟨d1, d2, h1, h2, hd⟩
  · rw [h1, h2]
    exact ⟨rfl, h⟩
  · rw [h1, h2]
    exact ⟨rfl, hd⟩

/-- Observational agreement of two tick results: identical notifications,
implicit cancellations, tombstoned uids and completion, with caches again
equal up to the stored hash. -/
def TickAgnostic (r1 r2 : TickResult) : Prop :=
  r1.notifs = r2.notifs ∧ r1.implicitCancels = r2.implicitCancels ∧
  r1.marked = r2.marked ∧ r1.completed = r2.completed ∧
  HashAgnostic r1.db r2.db

theorem checkTick_agnostic_core (hashFn : Event → String)
    (tz rm window : Int) (requestOk : Bool) (currentEvents : List Event)
    (db1 db2 : List CacheEntry) (todayWall tomorrowEndWall nowWall : Int)
    (channelOk : Bool)
    (h : List.Forall₂ (fun a b => eraseHash a = eraseHash b) db1 db2) :
    TickAgnostic
      (checkTick hashFn tz rm window requestOk currentEvents db1 todayWall
        tomorrowEndWall nowWall channelOk)
      (checkTick hashFn tz rm window requestOk currentEvents db2 todayWall
        tomorrowEndWall nowWall channelOk) := by
  have hcm := cachedEventsMap_agnostic todayWall tomorrowEndWall db1 db2 h
  have hd := diffLoop_agnostic tz todayWall (buildEventsMap currentEvents)
    (cachedEventsMap db1 todayWall tomorrowEndWall)
    (cachedEventsMap db2 todayWall tomorrowEndWall) hcm
  have hlen := List.Forall₂.length_eq hcm
  have hniff : (cachedEventsMap db1 todayWall tomorrowEndWall = []) ↔
      (cachedEventsMap db2 todayWall tomorrowEndWall = []) := by
    constructor
    · intro h1
      have h0 : (cachedEventsMap db2 todayWall tomorrowEndWall).length = 0 := by
        rw [← hlen, h1]
        rfl
      exact List.length_eq_zero.mp h0
    · intro h2
      have h0 : (cachedEventsMap db1 todayWall tomorrowEndWall).length = 0 := by
        rw [hlen, h2]
        rfl
      exact List.length_eq_zero.mp h0
  simp only [checkTick]
  rw [← hd]
  by_cases hdd : (diffLoop tz todayWall
      (cachedEventsMap db1 todayWall tomorrowEndWall)
      (buildEventsMap currentEvents)).2.2 = true
  · rw [if_pos hdd, if_pos hdd]
    have hcond : (requestOk = true ∧
        cachedEventsMap db2 todayWall tomorrowEndWall ≠ []) =
        (requestOk = true ∧
        cachedEventsMap db1 todayWall tomorrowEndWall ≠ []) := by
      apply propext
      constructor
      · intro hx
        exact ⟨hx.1, fun hh => hx.2 (hniff.mp hh)⟩
      · intro hx
        exact ⟨hx.1, fun hh => hx.2 (hniff.mpr hh)⟩
    simp only [hcond]
    by_cases hreq : (requestOk = true ∧
        cachedEventsMap db1 todayWall tomorrowEndWall ≠ [])
    · rw [if_pos hreq, if_pos hreq]
      obtain ⟨hi1, hi2, hi3⟩ := implicitCancellations_agnostic
        (diffLoop tz todayWall (cachedEventsMap db1 todayWall tomorrowEndWall)
          (buildEventsMap currentEvents)).2.1
        (cachedEventsMap db1 todayWall tomorrowEndWall)
        (cachedEventsMap db2 todayWall tomorrowEndWall) hcm db1 db2 h
      obtain ⟨hu1, hu2⟩ := updateEventsCache_agnostic hashFn
        ((buildEventsMap currentEvents).map Prod.snd) _ _ hi3
      rw [← hu1]
      by_cases huu : (updateEventsCache hashFn
          (implicitCancellations
            (diffLoop tz todayWall
              (cachedEventsMap db1 todayWall tomorrowEndWall)
              (buildEventsMap currentEvents)).2.1
            (cachedEventsMap db1 todayWall tomorrowEndWall) db1).2.2
          ((buildEventsMap currentEvents).map Prod.snd)).2 = true
      · rw [if_pos huu, if_pos huu]
        exact ⟨by rw [hi1], by rw [hi1], by rw [hi2], rfl, hu2⟩
      · rw [if_neg huu, if_neg huu]
        exact ⟨by rw [hi1], by rw [hi1], by rw [hi2], rfl, hu2⟩
    · rw [if_neg hreq, if_neg hreq]
      obtain ⟨hu1, hu2⟩ := updateEventsCache_agnostic hashFn
        ((buildEventsMap currentEvents).map Prod.snd) db1 db2 h
      rw [← hu1]
      by_cases huu : (updateEventsCache hashFn db1
          ((buildEventsMap currentEvents).map Prod.snd)).2 = true
      · rw [if_pos huu, if_pos huu]
        exact ⟨rfl, rfl, rfl, rfl, hu2⟩
      · rw [if_neg huu, if_neg huu]
        exact ⟨rfl, rfl, rfl, rfl, hu2⟩
  · rw [if_neg hdd, if_neg hdd]
    exact ⟨rfl, rfl, rfl, rfl, h⟩

/-- C8: two-run noninterference over the stored hash — for any two cache
states whose rows differ only in their `hash_value`, a tick produces
identical notifications (hence identical classifications), identical
implicit-cancellation emissions, identical tombstoned uids and identical
completion, and the resulting caches again agree on everything except the
stored hashes: the hash is never read during classification, only
recomputed and stored on upsert. -/
theorem c8_stored_hash_noninterference (hashFn : Event → String)
    (tz rm window : Int) (requestOk : Bool) (currentEvents : List Event)
    (db1 db2 : List CacheEntry) (todayWall tomorrowEndWall nowWall : Int)
    (channelOk : Bool) (h : HashAgnostic db1 db2) :
    (checkTick hashFn tz rm window requestOk currentEvents db1 todayWall
        tomorrowEndWall nowWall channelOk).notifs =
      (checkTick hashFn tz rm window requestOk currentEvents db2 todayWall
        tomorrowEndWall nowWall channelOk).notifs ∧
    (checkTick hashFn tz rm window requestOk currentEvents db1 todayWall
        tomorrowEndWall nowWall channelOk).implicitCancels =
      (checkTick hashFn tz rm window requestOk currentEvents db2 todayWall
        tomorrowEndWall nowWall channelOk).implicitCancels ∧
    (checkTick hashFn tz rm window requestOk currentEvents db1 todayWall
        tomorrowEndWall nowWall channelOk).marked =
      (checkTick hashFn tz rm window requestOk currentEvents db2 todayWall
        tomorrowEndWall nowWall channelOk).marked ∧
    (checkTick hashFn tz rm window requestOk currentEvents db1 todayWall
        tomorrowEndWall nowWall channelOk).completed =
      (checkTick hashFn tz rm window requestOk currentEvents db2 todayWall
        tomorrowEndWall nowWall channelOk).completed ∧
    HashAgnostic
      (checkTick hashFn tz rm window requestOk currentEvents db1 todayWall
        tomorrowEndWall nowWall channelOk).db
      (checkTick hashFn tz rm window requestOk currentEvents db2 todayWall
        tomorrowEndWall nowWall channelOk).db := by
  have hc := checkTick_agnostic_core hashFn tz rm window requestOk
    currentEvents db1 db2 todayWall tomorrowEndWall nowWall channelOk h
  exact ⟨hc.1, hc.2.1, hc.2.2.1, hc.2.2.2.1, hc.2.2.2.2⟩

/-- A cached row whose stored hash is one value. -/
def c8RowHashA : CacheEntry :=
  { uid := "x", title := "m", startTime := ⟨3600, none⟩,
    endTime := ⟨7200, none⟩, description := "", location := "",
    organizer := "", attendees := "[]", status := "CONFIRMED",
    hashValue := "aaaa" }

/-- The same row with a drifted stored hash. -/
def c8RowHashB : CacheEntry :=
  { uid := "x", title := "m", startTime := ⟨3600, none⟩,
    endTime := ⟨7200, none⟩, description := "", location := "",
    organizer := "", attendees := "[]", status := "CONFIRMED",
    hashValue := "bbbb" }

/-- C8 witness: two concrete one-row caches differing only in the stored
hash produce identical notifications for the same tick. -/
theorem c8_stored_hash_noninterference_witness :
    (checkTick (fun _ => "h") 10800 15 60 true [] [c8RowHashA] 0 172799 3600
        true).notifs =
      (checkTick (fun _ => "h") 10800 15 60 true [] [c8RowHashB] 0 172799
        3600 true).notifs :=
  (c8_stored_hash_noninterference (fun _ => "h") 10800 15 60 true []
    [c8RowHashA] [c8RowHashB] 0 172799 3600 true
    (List.Forall₂.cons (by decide) List.Forall₂.nil)).1
